import Mathlib

/-! keep-token-alive: a verification development.

A shallow embedding of `keep-token-alive.go` (package `main`): the two HTTP
operations `login` and `refreshToken`, and `main`, which chooses between them.

* Go strings and byte slices are sequences of bytes; a byte is a natural number
  below 256 (`GoString`).
* The network is an explicit transition system (`HTTP`): `client.Do` followed by
  `ioutil.ReadAll` is one step of the server, and every function returns the
  requests it handed to `client.Do`, in order.
* `encoding/json`, `unicode/utf8` and `fmt.Sprintf` are not part of the
  repository; they are embedded by their documented behaviour, on bytes.
-/

namespace KeepTokenAlive

/-! ## Bytes and UTF-8 (package `unicode/utf8`) -/

/-- A Go `string` or `[]byte`: any sequence of bytes, not necessarily UTF-8.
An entry stands for one byte; the functions below treat an entry above 255 as
an invalid byte, and no theorem relies on such entries. -/
abbrev GoString := List Nat

/-- The Unicode replacement character `utf8.RuneError`. -/
def RuneError : Nat := 0xFFFD

/-- The function `utf8.AppendRune`: the UTF-8 encoding of a rune; surrogates and
values above `0x10FFFF` are encoded as `RuneError`. -/
def encodeRune (r : Nat) : GoString :=
  if r < 0x80 then [r]
  else if r < 0x800 then [0xC0 + r / 64, 0x80 + r % 64]
  else if 0x10FFFF < r ∨ (0xD800 ≤ r ∧ r ≤ 0xDFFF) then [0xEF, 0xBF, 0xBD]
  else if r < 0x10000 then [0xE0 + r / 4096, 0x80 + r / 64 % 64, 0x80 + r % 64]
  else [0xF0 + r / 262144, 0x80 + r / 4096 % 64, 0x80 + r / 64 % 64, 0x80 + r % 64]

/-- The function `utf8.DecodeRune`: the first rune of `p` and its width in bytes.
An empty input gives `(RuneError, 0)`, an invalid encoding `(RuneError, 1)`.
The accepted ranges of the second byte exclude overlong forms, surrogates and
values above `0x10FFFF`, as the table `acceptRanges` of the library does. -/
def decodeRune : GoString → Nat × Nat
  | [] => (RuneError, 0)
  | p0 :: rest =>
    if p0 < 0x80 then (p0, 1)
    else if p0 < 0xC2 then (RuneError, 1)
    else if p0 < 0xE0 then
      match rest with
      | b1 :: _ =>
        if b1 < 0x80 ∨ 0xBF < b1 then (RuneError, 1)
        else (p0 % 32 * 64 + b1 % 64, 2)
      | _ => (RuneError, 1)
    else if p0 < 0xF0 then
      match rest with
      | b1 :: b2 :: _ =>
        if b1 < (if p0 = 0xE0 then 0xA0 else 0x80) ∨ (if p0 = 0xED then 0x9F else 0xBF) < b1 then
          (RuneError, 1)
        else if b2 < 0x80 ∨ 0xBF < b2 then (RuneError, 1)
        else (p0 % 16 * 4096 + b1 % 64 * 64 + b2 % 64, 3)
      | _ => (RuneError, 1)
    else if p0 < 0xF5 then
      match rest with
      | b1 :: b2 :: b3 :: _ =>
        if b1 < (if p0 = 0xF0 then 0x90 else 0x80) ∨ (if p0 = 0xF4 then 0x8F else 0xBF) < b1 then
          (RuneError, 1)
        else if b2 < 0x80 ∨ 0xBF < b2 then (RuneError, 1)
        else if b3 < 0x80 ∨ 0xBF < b3 then (RuneError, 1)
        else (p0 % 8 * 262144 + b1 % 64 * 4096 + b2 % 64 * 64 + b3 % 64, 4)
      | _ => (RuneError, 1)
    else (RuneError, 1)

/-- The loop of `utf8.Valid`, with the length of the input as fuel. -/
def validLoop : Nat → GoString → Bool
  | 0, s => s.isEmpty
  | _ + 1, [] => true
  | n + 1, b :: rest =>
    if b < 0x80 then validLoop n rest
    else if decodeRune (b :: rest) = (RuneError, 1) then false
    else validLoop n ((b :: rest).drop (decodeRune (b :: rest)).2)

/-- The function `utf8.Valid`: the bytes are a sequence of well-formed UTF-8
encodings. -/
def utf8Valid (s : GoString) : Bool := validLoop s.length s

/-- The bytes of a Go string literal: source text is UTF-8. -/
def bytes (s : String) : GoString := s.data.flatMap (fun c => encodeRune c.toNat)

/-! ## JSON encoding (package `encoding/json`, `Marshal`) -/

/-- The table `hex` of the encoder, the digits `0123456789abcdef`. -/
def hexDigit (n : Nat) : Nat := if n < 10 then 0x30 + n else 0x57 + n

/-- The table `htmlSafeSet`: the ASCII bytes written without escaping, which
are all bytes from space on, except the double quote, the backslash and the
three characters `<`, `>`, `&`. -/
def htmlSafe (b : Nat) : Bool :=
  decide (0x20 ≤ b) && decide (b < 0x80) && !(b == 0x22) && !(b == 0x5C) &&
    !(b == 0x3C) && !(b == 0x3E) && !(b == 0x26)

/-- The escape written for an ASCII byte outside `htmlSafeSet`. Releases of
the library before 1.22 write backspace and form feed in the `\u00` form, which
decodes to the same byte. -/
def escapeByte (b : Nat) : GoString :=
  if b = 0x5C ∨ b = 0x22 then [0x5C, b]
  else if b = 0x08 then [0x5C, 0x62]
  else if b = 0x0C then [0x5C, 0x66]
  else if b = 0x0A then [0x5C, 0x6E]
  else if b = 0x0D then [0x5C, 0x72]
  else if b = 0x09 then [0x5C, 0x74]
  else [0x5C, 0x75, 0x30, 0x30, hexDigit (b / 16), hexDigit (b % 16)]

/-- The loop of the encoder function `appendString`, between the two quotes.
An invalid byte is written as the escape of `RuneError`; the line and paragraph
separators are escaped; every other rune is copied. -/
def appendStringLoop : Nat → GoString → GoString
  | 0, _ => []
  | _ + 1, [] => []
  | n + 1, b :: rest =>
    if b < 0x80 then
      (if htmlSafe b then [b] else escapeByte b) ++ appendStringLoop n rest
    else if decodeRune (b :: rest) = (RuneError, 1) then
      [0x5C, 0x75, 0x66, 0x66, 0x66, 0x64] ++ appendStringLoop n rest
    else if (decodeRune (b :: rest)).1 = 0x2028 ∨ (decodeRune (b :: rest)).1 = 0x2029 then
      [0x5C, 0x75, 0x32, 0x30, 0x32, hexDigit ((decodeRune (b :: rest)).1 % 16)] ++
        appendStringLoop n ((b :: rest).drop (decodeRune (b :: rest)).2)
    else
      (b :: rest).take (decodeRune (b :: rest)).2 ++
        appendStringLoop n ((b :: rest).drop (decodeRune (b :: rest)).2)

/-- The encoder function `appendString` with HTML escaping on, as `Marshal`
uses it: the JSON string literal for a Go string. -/
def appendString (src : GoString) : GoString :=
  0x22 :: (appendStringLoop src.length src ++ [0x22])

/-! ## JSON decoding (package `encoding/json`, `Unmarshal`) -/

/-- A JSON document. A number keeps its literal text. -/
inductive JValue where
  | null : JValue
  | bool : Bool → JValue
  | num : GoString → JValue
  | str : GoString → JValue
  | arr : List JValue → JValue
  | obj : List (GoString × JValue) → JValue

/-- The scanner function `isSpace`. -/
def isSpace (c : Nat) : Bool := c == 0x20 || c == 0x09 || c == 0x0D || c == 0x0A

/-- Skip insignificant white space. -/
def skipSpace : GoString → GoString
  | [] => []
  | c :: rest => if isSpace c then skipSpace rest else c :: rest

/-- The value of a hexadecimal digit, in either case. -/
def hexVal (c : Nat) : Option Nat :=
  if 0x30 ≤ c ∧ c ≤ 0x39 then some (c - 0x30)
  else if 0x61 ≤ c ∧ c ≤ 0x66 then some (c - 0x61 + 10)
  else if 0x41 ≤ c ∧ c ≤ 0x46 then some (c - 0x41 + 10)
  else none

/-- The decoder function `getu4`, after the two bytes of `\u`: the value of
four hexadecimal digits, and the input after them. -/
def getu4 : GoString → Option (Nat × GoString)
  | a :: b :: c :: d :: rest =>
    match hexVal a, hexVal b, hexVal c, hexVal d with
    | some x, some y, some z, some w => some (x * 4096 + y * 256 + z * 16 + w, rest)
    | _, _, _, _ => none
  | _ => none

/-- Put `xs` in front of the decoded part of a result. -/
def consDecoded (xs : GoString) : Option (GoString × GoString) → Option (GoString × GoString)
  | some (d, rest) => some (xs ++ d, rest)
  | none => none

/-- The body of a JSON string literal, after its opening quote: the decoded
bytes and the input after the closing quote (the scanner states `stateInString`
and the function `unquoteBytes`). A control byte, an unknown escape or a missing
closing quote is an error; a lone surrogate escape and an invalid byte both
decode to `RuneError`. -/
def unquoteLoop : Nat → GoString → Option (GoString × GoString)
  | 0, _ => none
  | _ + 1, [] => none
  | n + 1, c :: rest =>
    if c = 0x22 then some ([], rest)
    else if c = 0x5C then
      match rest with
      | [] => none
      | e :: rest2 =>
        if e = 0x22 ∨ e = 0x5C ∨ e = 0x2F then consDecoded [e] (unquoteLoop n rest2)
        else if e = 0x62 then consDecoded [0x08] (unquoteLoop n rest2)
        else if e = 0x66 then consDecoded [0x0C] (unquoteLoop n rest2)
        else if e = 0x6E then consDecoded [0x0A] (unquoteLoop n rest2)
        else if e = 0x72 then consDecoded [0x0D] (unquoteLoop n rest2)
        else if e = 0x74 then consDecoded [0x09] (unquoteLoop n rest2)
        else if e = 0x75 then
          match getu4 rest2 with
          | none => none
          | some (rr, rest3) =>
            if 0xD800 ≤ rr ∧ rr < 0xE000 then
              match rest3 with
              | e1 :: e2 :: rest4 =>
                match (if e1 = 0x5C ∧ e2 = 0x75 then getu4 rest4 else none) with
                | some (rr1, rest5) =>
                  if rr < 0xDC00 ∧ 0xDC00 ≤ rr1 ∧ rr1 < 0xE000 then
                    consDecoded (encodeRune ((rr - 0xD800) * 1024 + (rr1 - 0xDC00) + 0x10000))
                      (unquoteLoop n rest5)
                  else consDecoded (encodeRune RuneError) (unquoteLoop n rest3)
                | none => consDecoded (encodeRune RuneError) (unquoteLoop n rest3)
              | _ => consDecoded (encodeRune RuneError) (unquoteLoop n rest3)
            else consDecoded (encodeRune rr) (unquoteLoop n rest3)
        else none
    else if c < 0x20 then none
    else if c < 0x80 then consDecoded [c] (unquoteLoop n rest)
    else
      consDecoded (encodeRune (decodeRune (c :: rest)).1)
        (unquoteLoop n ((c :: rest).drop (decodeRune (c :: rest)).2))

/-- A JSON string literal after its opening quote. -/
def unquote (s : GoString) : Option (GoString × GoString) := unquoteLoop (s.length + 1) s

/-- Whether a byte is a decimal digit. -/
def isDigit (c : Nat) : Bool := decide (0x30 ≤ c) && decide (c ≤ 0x39)

/-- The integer part of a number: a single `0`, or a nonzero digit and digits. -/
def scanInt : GoString → Option (GoString × GoString)
  | [] => none
  | c :: rest =>
    if c = 0x30 then some ([c], rest)
    else if 0x31 ≤ c ∧ c ≤ 0x39 then some (c :: (rest.span isDigit).1, (rest.span isDigit).2)
    else none

/-- At least one digit. -/
def scanDigits (s : GoString) : Option (GoString × GoString) :=
  match s.span isDigit with
  | ([], _) => none
  | (ds, rest) => some (ds, rest)

/-- The optional fraction of a number. -/
def scanFrac : GoString → Option (GoString × GoString)
  | [] => some ([], [])
  | c :: rest =>
    if c = 0x2E then (scanDigits rest).map (fun r => (c :: r.1, r.2))
    else some ([], c :: rest)

/-- The optional exponent of a number. -/
def scanExp : GoString → Option (GoString × GoString)
  | [] => some ([], [])
  | c :: rest =>
    if c = 0x65 ∨ c = 0x45 then
      match rest with
      | [] => none
      | g :: rest2 =>
        if g = 0x2B ∨ g = 0x2D then (scanDigits rest2).map (fun r => (c :: g :: r.1, r.2))
        else (scanDigits rest).map (fun r => (c :: r.1, r.2))
    else some ([], c :: rest)

/-- A JSON number literal: its text and the input after it. -/
def scanNumber (s : GoString) : Option (GoString × GoString) :=
  let body := match s with
    | [] => s
    | c :: rest => if c = 0x2D then rest else s
  match scanInt body with
  | none => none
  | some (i, s2) =>
    match scanFrac s2 with
    | none => none
    | some (f, s3) =>
      match scanExp s3 with
      | none => none
      | some (e, s4) => some (s.take (s.length - body.length) ++ i ++ f ++ e, s4)

/-- Remove the bytes of a literal word from the front of the input. -/
def dropLit : GoString → GoString → Option GoString
  | [], s => some s
  | _ :: _, [] => none
  | l :: ls, c :: s => if c = l then dropLit ls s else none

/-- The limit `maxNestingDepth` of the scanner. -/
def maxNestingDepth : Nat := 10000

mutual
/-- A JSON value whose first byte is the first byte of the input; the second
argument is the number of arrays and objects the value is nested in. -/
def parseValue : Nat → Nat → GoString → Option (JValue × GoString)
  | 0, _, _ => none
  | _ + 1, _, [] => none
  | n + 1, depth, c :: rest =>
    if c = 0x7B then
      if maxNestingDepth < depth + 1 then none
      else
        match skipSpace rest with
        | [] => none
        | d :: rest2 =>
          if d = 0x7D then some (JValue.obj [], rest2)
          else (parseMembers n (depth + 1) (d :: rest2)).map (fun r => (JValue.obj r.1, r.2))
    else if c = 0x5B then
      if maxNestingDepth < depth + 1 then none
      else
        match skipSpace rest with
        | [] => none
        | d :: rest2 =>
          if d = 0x5D then some (JValue.arr [], rest2)
          else (parseElems n (depth + 1) (d :: rest2)).map (fun r => (JValue.arr r.1, r.2))
    else if c = 0x22 then (unquote rest).map (fun r => (JValue.str r.1, r.2))
    else if c = 0x74 then (dropLit [0x72, 0x75, 0x65] rest).map (fun r => (JValue.bool true, r))
    else if c = 0x66 then
      (dropLit [0x61, 0x6C, 0x73, 0x65] rest).map (fun r => (JValue.bool false, r))
    else if c = 0x6E then (dropLit [0x75, 0x6C, 0x6C] rest).map (fun r => (JValue.null, r))
    else (scanNumber (c :: rest)).map (fun r => (JValue.num r.1, r.2))
/-- The members of an object up to its closing brace; the input starts at the
first key. -/
def parseMembers : Nat → Nat → GoString → Option (List (GoString × JValue) × GoString)
  | 0, _, _ => none
  | _ + 1, _, [] => none
  | n + 1, depth, c :: rest =>
    if c = 0x22 then
      match unquote rest with
      | none => none
      | some (key, rest1) =>
        match skipSpace rest1 with
        | [] => none
        | colon :: rest2 =>
          if colon = 0x3A then
            match parseValue n depth (skipSpace rest2) with
            | none => none
            | some (v, rest3) =>
              match skipSpace rest3 with
              | [] => none
              | sep :: rest4 =>
                if sep = 0x7D then some ([(key, v)], rest4)
                else if sep = 0x2C then
                  (parseMembers n depth (skipSpace rest4)).map (fun r => ((key, v) :: r.1, r.2))
                else none
          else none
    else none
/-- The elements of an array up to its closing bracket; the input starts at
the first element. -/
def parseElems : Nat → Nat → GoString → Option (List JValue × GoString)
  | 0, _, _ => none
  | n + 1, depth, s =>
    match parseValue n depth s with
    | none => none
    | some (v, rest1) =>
      match skipSpace rest1 with
      | [] => none
      | sep :: rest2 =>
        if sep = 0x5D then some ([v], rest2)
        else if sep = 0x2C then
          (parseElems n depth (skipSpace rest2)).map (fun r => (v :: r.1, r.2))
        else none
end

/-- A whole JSON text, as the function `checkValid` accepts it: white space, one
value, white space. The fuel is the length of the text and one more, and is
never what makes the parser reject a text (`parseJSON_fuel`). -/
def parseJSON (data : GoString) : Option JValue :=
  match parseValue (data.length + 1) 0 (skipSpace data) with
  | none => none
  | some (v, rest) => if (skipSpace rest).isEmpty then some v else none

/-! ## The types of the program -/

/-- KeepAliveOptions contains the information necessary to reach the API. -/
structure KeepAliveOptions where
  APIHost : GoString
  LoginPath : GoString
  Port : GoString
  PingPath : GoString
  deriving DecidableEq, Repr

/-- LoginInfo contains the email and password to connect with; its JSON keys
are `email` and `password`. -/
structure LoginInfo where
  Email : GoString
  Password : GoString
  deriving DecidableEq, Repr

/-- LoginResponse contains the token from the API; its JSON key is `token`. -/
structure LoginResponse where
  Token : GoString
  deriving DecidableEq, Repr

/-- RefreshResponse contains the response from the API after an attempt to
refresh a session token; its JSON keys are `success` and `message`. -/
structure RefreshResponse where
  Success : Bool
  Message : GoString
  deriving DecidableEq, Repr

/-- The two errors of `json.Unmarshal`: the text is not JSON (`SyntaxError`), or
a JSON value does not fit the Go type it is stored in (`UnmarshalTypeError`). -/
inductive JSONError where
  | malformed : JSONError
  | typeMismatch : JSONError
  deriving DecidableEq, Repr

/-- A Go `error` value of this program: from `http.NewRequest`, from
`client.Do`, from `ioutil.ReadAll`, or from `json.Unmarshal`. -/
inductive GoError where
  | badURL : GoString → GoError
  | transport : String → GoError
  | read : String → GoError
  | json : JSONError → GoError
  deriving DecidableEq, Repr

/-! ## Decoding into the structs of the program -/

/-- The least rune of the case-folding orbit of a rune (`foldRune`). Only the
two orbits that reach outside ASCII from an ASCII letter are tabulated, the long
s and the Kelvin sign; the JSON keys of this program are ASCII, so no other rune
can make a key equal to one of them. -/
def foldRune (r : Nat) : Nat :=
  if r = 0x17F then 0x53 else if r = 0x212A then 0x4B else r

/-- The loop of the decoder function `foldName`: ASCII letters in upper case,
other runes folded. -/
def foldNameLoop : Nat → GoString → GoString
  | 0, _ => []
  | _ + 1, [] => []
  | n + 1, c :: rest =>
    if c < 0x80 then
      (if 0x61 ≤ c ∧ c ≤ 0x7A then c - 0x20 else c) :: foldNameLoop n rest
    else
      encodeRune (foldRune (decodeRune (c :: rest)).1) ++
        foldNameLoop n ((c :: rest).drop (decodeRune (c :: rest)).2)

/-- The decoder function `foldName`. -/
def foldName (s : GoString) : GoString := foldNameLoop s.length s

/-- Whether an object key selects the struct field with the JSON name `name`:
an exact match, or else a match of the folded names. -/
def keyMatches (name key : GoString) : Bool :=
  key == name || foldName key == foldName name

/-- Store a JSON value in a Go `bool`: `null` leaves the variable as it is, and
any value but `true` and `false` is a type error. -/
def storeBool (cur : Bool) : JValue → Except JSONError Bool
  | JValue.bool b => Except.ok b
  | JValue.null => Except.ok cur
  | _ => Except.error JSONError.typeMismatch

/-- Store a JSON value in a Go `string`: `null` leaves the variable as it is,
and any value but a string is a type error. -/
def storeString (cur : GoString) : JValue → Except JSONError GoString
  | JValue.str s => Except.ok s
  | JValue.null => Except.ok cur
  | _ => Except.error JSONError.typeMismatch

/-- One member of an object decoded into a `RefreshResponse`; a key that
selects no field is skipped. -/
def storeRefreshMember (r : RefreshResponse) (m : GoString × JValue) :
    Except JSONError RefreshResponse :=
  if keyMatches [0x73, 0x75, 0x63, 0x63, 0x65, 0x73, 0x73] m.1 then
    (storeBool r.Success m.2).map (fun b => { r with Success := b })
  else if keyMatches [0x6D, 0x65, 0x73, 0x73, 0x61, 0x67, 0x65] m.1 then
    (storeString r.Message m.2).map (fun x => { r with Message := x })
  else Except.ok r

/-- One member of an object decoded into a `LoginResponse`. -/
def storeLoginResponseMember (r : LoginResponse) (m : GoString × JValue) :
    Except JSONError LoginResponse :=
  if keyMatches [0x74, 0x6F, 0x6B, 0x65, 0x6E] m.1 then
    (storeString r.Token m.2).map (fun x => { r with Token := x })
  else Except.ok r

/-- One member of an object decoded into a `LoginInfo`. -/
def storeLoginInfoMember (r : LoginInfo) (m : GoString × JValue) :
    Except JSONError LoginInfo :=
  if keyMatches [0x65, 0x6D, 0x61, 0x69, 0x6C] m.1 then
    (storeString r.Email m.2).map (fun x => { r with Email := x })
  else if keyMatches [0x70, 0x61, 0x73, 0x73, 0x77, 0x6F, 0x72, 0x64] m.1 then
    (storeString r.Password m.2).map (fun x => { r with Password := x })
  else Except.ok r

/-- Decode a parsed document into a struct variable holding `zero`: an object
is stored member by member, in order; `null` leaves the variable as it is;
every other value is a type error. -/
def storeStruct {α : Type} (step : α → GoString × JValue → Except JSONError α) (zero : α) :
    Option JValue → Except JSONError α
  | none => Except.error JSONError.malformed
  | some (JValue.obj members) => members.foldlM step zero
  | some JValue.null => Except.ok zero
  | some _ => Except.error JSONError.typeMismatch

/-- The call `json.Unmarshal(body, &refreshResponse)` on a fresh variable: the
error, or the value the variable holds afterwards. -/
def jsonUnmarshalRefreshResponse (data : GoString) : Except JSONError RefreshResponse :=
  storeStruct storeRefreshMember { Success := false, Message := [] } (parseJSON data)

/-- The call `json.Unmarshal(body, &loginResponse)` on a fresh variable. -/
def jsonUnmarshalLoginResponse (data : GoString) : Except JSONError LoginResponse :=
  storeStruct storeLoginResponseMember { Token := [] } (parseJSON data)

/-- The call `json.Unmarshal(body, &loginInfo)` on a fresh variable, which is
how a Go peer reads the body of a login request. -/
def jsonUnmarshalLoginInfo (data : GoString) : Except JSONError LoginInfo :=
  storeStruct storeLoginInfoMember { Email := [], Password := [] } (parseJSON data)

/-- The call `json.Marshal(loginInfo)`: the two fields in declaration order,
under their JSON names. A struct of two strings has no value that `Marshal`
rejects, so the error is always `nil`; the program tests it all the same. -/
def jsonMarshalLoginInfo (loginInfo : LoginInfo) : GoString × Option GoError :=
  ([0x7B, 0x22, 0x65, 0x6D, 0x61, 0x69, 0x6C, 0x22, 0x3A] ++ appendString loginInfo.Email ++
    [0x2C, 0x22, 0x70, 0x61, 0x73, 0x73, 0x77, 0x6F, 0x72, 0x64, 0x22, 0x3A] ++
    appendString loginInfo.Password ++ [0x7D], none)

/-! ## The network -/

/-- The request methods the program uses. -/
inductive Method where
  | GET : Method
  | POST : Method
  deriving DecidableEq, Repr

/-- An `http.Request`, as far as the program sets it; `url` is the string
handed to `http.NewRequest`. -/
structure Request where
  method : Method
  url : GoString
  header : List (String × GoString)
  body : Option GoString
  deriving DecidableEq, Repr

/-- What `client.Do(req)` followed by `ioutil.ReadAll(resp.Body)` gives back. -/
inductive Reply where
  | doError : String → Reply
  | readError : Nat → String → Reply
  | complete : Nat → GoString → Reply
  deriving DecidableEq, Repr

/-- The world outside the program: which URLs `http.NewRequest` accepts (it
fails when `url.Parse` does), and a server with states of type `σ` that answers
each request and moves to a next state. The `Nat` of a reply is the status code
of the response. -/
structure HTTP (σ : Type) where
  validURL : GoString → Bool
  roundTrip : σ → Request → Reply × σ

/-- The call `http.NewRequest(method, url, body)`. -/
def newRequest {σ : Type} (h : HTTP σ) (method : Method) (url : GoString)
    (body : Option GoString) : Except GoError Request :=
  if h.validURL url then Except.ok { method := method, url := url, header := [], body := body }
  else Except.error (GoError.badURL url)

/-- The call `req.Header.Set(key, value)`. -/
def setHeader (req : Request) (key : String) (value : GoString) : Request :=
  { req with header := req.header.filter (fun kv => kv.1 != key) ++ [(key, value)] }

/-- A run of `login` or `refreshToken`: the pair of results of the Go function,
the state of the server afterwards, and the requests passed to `client.Do`, in
order. -/
structure Run (σ : Type) where
  result : GoString × Option GoError
  state : σ
  sent : List Request

/-! ## The program -/

/-- The call `fmt.Sprintf("http://%s:%s/%s", host, port, path)`. -/
def sprintfURL (host port path : GoString) : GoString :=
  bytes "http://" ++ host ++ bytes ":" ++ port ++ bytes "/" ++ path

/-- The function `login` of the program. -/
def login {σ : Type} (h : HTTP σ) (options : KeepAliveOptions) (loginInfo : LoginInfo)
    (s : σ) : Run σ :=
  let url := sprintfURL options.APIHost options.Port options.LoginPath
  match jsonMarshalLoginInfo loginInfo with
  | (_, some err) => { result := ([], some err), state := s, sent := [] }
  | (loginBytes, none) =>
    match newRequest h Method.POST url (some loginBytes) with
    | Except.error err => { result := ([], some err), state := s, sent := [] }
    | Except.ok req0 =>
      let req := setHeader req0 "Content-Type" (bytes "application/json")
      match h.roundTrip s req with
      | (Reply.doError e, s1) =>
        { result := ([], some (GoError.transport e)), state := s1, sent := [req] }
      | (Reply.readError _ e, s1) =>
        { result := ([], some (GoError.read e)), state := s1, sent := [req] }
      | (Reply.complete _ body, s1) =>
        match jsonUnmarshalLoginResponse body with
        | Except.error err =>
          { result := ([], some (GoError.json err)), state := s1, sent := [req] }
        | Except.ok loginResponse =>
          { result := (loginResponse.Token, none), state := s1, sent := [req] }

/-- The function `refreshToken` of the program. -/
def refreshToken {σ : Type} (h : HTTP σ) (options : KeepAliveOptions) (loginInfo : LoginInfo)
    (token : GoString) (s : σ) : Run σ :=
  let url := sprintfURL options.APIHost options.Port options.PingPath
  match newRequest h Method.GET url none with
  | Except.error err => { result := ([], some err), state := s, sent := [] }
  | Except.ok req0 =>
    let req := setHeader req0 "Authorization" token
    match h.roundTrip s req with
    | (Reply.doError e, s1) =>
      { result := ([], some (GoError.transport e)), state := s1, sent := [req] }
    | (Reply.readError _ e, s1) =>
      { result := ([], some (GoError.read e)), state := s1, sent := [req] }
    | (Reply.complete _ body, s1) =>
      match jsonUnmarshalRefreshResponse body with
      | Except.error err =>
        { result := ([], some (GoError.json err)), state := s1, sent := [req] }
      | Except.ok refreshResponse =>
        if !refreshResponse.Success then
          let r := login h options loginInfo s1
          { r with sent := req :: r.sent }
        else { result := (token, none), state := s1, sent := [req] }

/-- The values of the command-line flags after `flag.Parse()`. -/
structure Flags where
  apiHost : GoString
  apiPort : GoString
  loginPath : GoString
  pingPath : GoString
  loginEmail : GoString
  loginPassword : GoString
  token : GoString
  deriving DecidableEq, Repr

/-- The default values the program registers for its flags. -/
def defaultFlags : Flags where
  apiHost := bytes "localhost"
  apiPort := bytes "4000"
  loginPath := bytes "/api/login"
  pingPath := bytes "/api/refresh_session"
  loginEmail := []
  loginPassword := []
  token := []

/-- How `main` ends: it returns, or it panics with an error. -/
inductive Exit where
  | returned : Exit
  | panicked : GoError → Exit
  deriving DecidableEq, Repr

/-- A run of `main`: what it wrote to standard output, how it ended, the state
of the server afterwards and the requests passed to `client.Do`, in order. -/
structure MainRun (σ : Type) where
  stdout : GoString
  exit : Exit
  state : σ
  sent : List Request

/-- The call `fmt.Println(x)` for a string: the bytes written. -/
def println (x : GoString) : GoString := x ++ [0x0A]

/-- The function `main` of the program, after `flag.Parse()`. -/
def main {σ : Type} (h : HTTP σ) (flags : Flags) (s : σ) : MainRun σ :=
  if flags.loginEmail = [] ∨ flags.loginPassword = [] then
    { stdout := println (bytes "loginEmail and loginPassword are required"),
      exit := Exit.returned, state := s, sent := [] }
  else
    let options : KeepAliveOptions :=
      { APIHost := flags.apiHost, LoginPath := flags.loginPath, Port := flags.apiPort,
        PingPath := flags.pingPath }
    let loginInfo : LoginInfo := { Email := flags.loginEmail, Password := flags.loginPassword }
    if flags.token = [] then
      let r := login h options loginInfo s
      match r.result.2 with
      | some err => { stdout := [], exit := Exit.panicked err, state := r.state, sent := r.sent }
      | none =>
        { stdout := println r.result.1, exit := Exit.returned, state := r.state, sent := r.sent }
    else
      let r := refreshToken h options loginInfo flags.token s
      match r.result.2 with
      | some err => { stdout := [], exit := Exit.panicked err, state := r.state, sent := r.sent }
      | none =>
        { stdout := println r.result.1, exit := Exit.returned, state := r.state, sent := r.sent }

/-! ## Vocabulary of the specification -/

/-- The request `refreshToken` builds: a GET of the refresh URL that carries the
existing token, as it is, in the `Authorization` header. -/
def refreshRequest (options : KeepAliveOptions) (token : GoString) : Request :=
  { method := Method.GET,
    url := sprintfURL options.APIHost options.Port options.PingPath,
    header := [("Authorization", token)],
    body := none }

/-- The request `login` builds: a POST of the login URL whose body is the
serialised credentials, with content type `application/json`. -/
def loginRequest (options : KeepAliveOptions) (loginInfo : LoginInfo) : Request :=
  { method := Method.POST,
    url := sprintfURL options.APIHost options.Port options.LoginPath,
    header := [("Content-Type", bytes "application/json")],
    body := some (jsonMarshalLoginInfo loginInfo).1 }

/-- A login call succeeded and yielded `tok`: the request was built, the
exchange completed (with any status code), and the body decoded into a
`LoginResponse` whose token field is `tok`. -/
def LoginYields {σ : Type} (h : HTTP σ) (options : KeepAliveOptions) (loginInfo : LoginInfo)
    (s : σ) (tok : GoString) : Prop :=
  h.validURL (sprintfURL options.APIHost options.Port options.LoginPath) = true ∧
  ∃ status body s1 r,
    h.roundTrip s (loginRequest options loginInfo) = (Reply.complete status body, s1) ∧
    jsonUnmarshalLoginResponse body = Except.ok r ∧ r.Token = tok

/-- A refresh call was answered: the request was built, the exchange completed
and left the server in state `s1`, and the body decoded into a `RefreshResponse`
whose success field is `success`. -/
def RefreshReports {σ : Type} (h : HTTP σ) (options : KeepAliveOptions) (token : GoString)
    (s : σ) (success : Bool) (s1 : σ) : Prop :=
  h.validURL (sprintfURL options.APIHost options.Port options.PingPath) = true ∧
  ∃ status body r,
    h.roundTrip s (refreshRequest options token) = (Reply.complete status body, s1) ∧
    jsonUnmarshalRefreshResponse body = Except.ok r ∧ r.Success = success

/-- Whether a JSON value is the literal `false`. -/
def JValue.isFalse : JValue → Bool
  | JValue.bool false => true
  | _ => false

/-- The body is a JSON object that states, in so many words, a member
`success` with the value `false`. -/
def statesSuccessFalse (body : GoString) : Bool :=
  match parseJSON body with
  | some (JValue.obj members) =>
    members.any (fun m => keyMatches (bytes "success") m.1 && m.2.isFalse)
  | _ => false

/-- The value `Success` holds after the members of an object have been stored
in a variable that held `cur`: that of the last member keyed `success` whose
value is `true` or `false`, and `cur` when there is none. -/
def statedSuccess (cur : Bool) : List (GoString × JValue) → Bool
  | [] => cur
  | m :: ms =>
    statedSuccess
      (if keyMatches (bytes "success") m.1 then
        (match m.2 with
          | JValue.bool b => b
          | _ => cur)
       else cur) ms

/-- The options `main` builds from the flags. -/
def optionsOf (flags : Flags) : KeepAliveOptions :=
  { APIHost := flags.apiHost, LoginPath := flags.loginPath, Port := flags.apiPort,
    PingPath := flags.pingPath }

/-- The credentials `main` builds from the flags. -/
def loginInfoOf (flags : Flags) : LoginInfo :=
  { Email := flags.loginEmail, Password := flags.loginPassword }

/-- Whether a URL has an ASCII control byte; `url.Parse` rejects such a URL. -/
def containsCTLByte (url : GoString) : Bool := url.any (fun b => decide (b < 0x20) || b == 0x7F)

/-- A server without state that answers every GET with `refreshReply` and every
POST with `loginReply`, behind a URL check that rejects control bytes. -/
def fixedServer (refreshReply loginReply : Reply) : HTTP Unit :=
  { validURL := fun url => !containsCTLByte url,
    roundTrip := fun s req =>
      match req.method with
      | Method.GET => (refreshReply, s)
      | Method.POST => (loginReply, s) }

/-- Credentials used in the examples. -/
def sampleLogin : LoginInfo := { Email := bytes "a@b.com", Password := bytes "p" }

deriving instance DecidableEq for Except

/-! ## The control flow of `login` and `refreshToken` -/

theorem login_unfold {σ : Type} (h : HTTP σ) (options : KeepAliveOptions) (loginInfo : LoginInfo) (s : σ) :
    login h options loginInfo s =
      if h.validURL (sprintfURL options.APIHost options.Port options.LoginPath) = true then
        match h.roundTrip s (loginRequest options loginInfo) with
        | (Reply.doError e, s1) =>
          { result := ([], some (GoError.transport e)), state := s1, sent := [loginRequest options loginInfo] }
        | (Reply.readError _ e, s1) =>
          { result := ([], some (GoError.read e)), state := s1, sent := [loginRequest options loginInfo] }
        | (Reply.complete _ body, s1) =>
          match jsonUnmarshalLoginResponse body with
          | Except.error err =>
            { result := ([], some (GoError.json err)), state := s1, sent := [loginRequest options loginInfo] }
          | Except.ok loginResponse =>
            { result := (loginResponse.Token, none), state := s1, sent := [loginRequest options loginInfo] }
      else { result := ([], some (GoError.badURL (sprintfURL options.APIHost options.Port options.LoginPath))),
             state := s, sent := [] } := by
  by_cases hv : h.validURL (sprintfURL options.APIHost options.Port options.LoginPath) = true
  · simp only [login, newRequest, hv, if_true]
    rfl
  · simp only [login, newRequest, hv, if_false]
    rfl

theorem refreshToken_unfold {σ : Type} (h : HTTP σ) (options : KeepAliveOptions) (loginInfo : LoginInfo)
    (token : GoString) (s : σ) :
    refreshToken h options loginInfo token s =
      if h.validURL (sprintfURL options.APIHost options.Port options.PingPath) = true then
        match h.roundTrip s (refreshRequest options token) with
        | (Reply.doError e, s1) =>
          { result := ([], some (GoError.transport e)), state := s1, sent := [refreshRequest options token] }
        | (Reply.readError _ e, s1) =>
          { result := ([], some (GoError.read e)), state := s1, sent := [refreshRequest options token] }
        | (Reply.complete _ body, s1) =>
          match jsonUnmarshalRefreshResponse body with
          | Except.error err =>
            { result := ([], some (GoError.json err)), state := s1, sent := [refreshRequest options token] }
          | Except.ok refreshResponse =>
            if refreshResponse.Success = false then
              { result := (login h options loginInfo s1).result, state := (login h options loginInfo s1).state,
                sent := refreshRequest options token :: (login h options loginInfo s1).sent }
            else { result := (token, none), state := s1, sent := [refreshRequest options token] }
      else { result := ([], some (GoError.badURL (sprintfURL options.APIHost options.Port options.PingPath))),
             state := s, sent := [] } := by
  by_cases hv : h.validURL (sprintfURL options.APIHost options.Port options.PingPath) = true
  · simp only [refreshToken, newRequest, hv, if_true]
    show (match h.roundTrip s (refreshRequest options token) with
      | (Reply.doError e, s1) => _
      | (Reply.readError _ e, s1) => _
      | (Reply.complete _ body, s1) => _) = _
    rcases h.roundTrip s (refreshRequest options token) with ⟨_ | _ | ⟨st, body⟩, s1⟩
    · rfl
    · rfl
    · simp only
      rcases jsonUnmarshalRefreshResponse body with e | r
      · rfl
      · cases hS : r.Success <;> simp [hS] <;> rfl
  · simp only [refreshToken, newRequest, hv, if_false]
    rfl
theorem login_badURL {σ : Type} (h : HTTP σ) (options : KeepAliveOptions) (loginInfo : LoginInfo)
    (s : σ) (hurl : h.validURL (sprintfURL options.APIHost options.Port options.LoginPath) = false) :
    login h options loginInfo s =
      { result := ([], some (GoError.badURL
          (sprintfURL options.APIHost options.Port options.LoginPath))),
        state := s, sent := [] } := by
  rw [login_unfold]; simp only [hurl]; rfl

theorem login_doError {σ : Type} (h : HTTP σ) (options : KeepAliveOptions) (loginInfo : LoginInfo)
    (s s1 : σ) (e : String)
    (hurl : h.validURL (sprintfURL options.APIHost options.Port options.LoginPath) = true)
    (hdo : h.roundTrip s (loginRequest options loginInfo) = (Reply.doError e, s1)) :
    login h options loginInfo s =
      { result := ([], some (GoError.transport e)), state := s1,
        sent := [loginRequest options loginInfo] } := by
  rw [login_unfold]; simp only [hurl, hdo, if_true]

theorem login_readError {σ : Type} (h : HTTP σ) (options : KeepAliveOptions)
    (loginInfo : LoginInfo) (s s1 : σ) (status : Nat) (e : String)
    (hurl : h.validURL (sprintfURL options.APIHost options.Port options.LoginPath) = true)
    (hdo : h.roundTrip s (loginRequest options loginInfo) = (Reply.readError status e, s1)) :
    login h options loginInfo s =
      { result := ([], some (GoError.read e)), state := s1,
        sent := [loginRequest options loginInfo] } := by
  rw [login_unfold]; simp only [hurl, hdo, if_true]

theorem login_jsonError {σ : Type} (h : HTTP σ) (options : KeepAliveOptions)
    (loginInfo : LoginInfo) (s s1 : σ) (status : Nat) (body : GoString) (err : JSONError)
    (hurl : h.validURL (sprintfURL options.APIHost options.Port options.LoginPath) = true)
    (hdo : h.roundTrip s (loginRequest options loginInfo) = (Reply.complete status body, s1))
    (hjson : jsonUnmarshalLoginResponse body = Except.error err) :
    login h options loginInfo s =
      { result := ([], some (GoError.json err)), state := s1,
        sent := [loginRequest options loginInfo] } := by
  rw [login_unfold]; simp only [hurl, hdo, hjson, if_true]

theorem login_ok {σ : Type} (h : HTTP σ) (options : KeepAliveOptions)
    (loginInfo : LoginInfo) (s s1 : σ) (status : Nat) (body : GoString) (r : LoginResponse)
    (hurl : h.validURL (sprintfURL options.APIHost options.Port options.LoginPath) = true)
    (hdo : h.roundTrip s (loginRequest options loginInfo) = (Reply.complete status body, s1))
    (hjson : jsonUnmarshalLoginResponse body = Except.ok r) :
    login h options loginInfo s =
      { result := (r.Token, none), state := s1, sent := [loginRequest options loginInfo] } := by
  rw [login_unfold]; simp only [hurl, hdo, hjson, if_true]

theorem refreshToken_badURL {σ : Type} (h : HTTP σ) (options : KeepAliveOptions)
    (loginInfo : LoginInfo) (token : GoString) (s : σ)
    (hurl : h.validURL (sprintfURL options.APIHost options.Port options.PingPath) = false) :
    refreshToken h options loginInfo token s =
      { result := ([], some (GoError.badURL
          (sprintfURL options.APIHost options.Port options.PingPath))),
        state := s, sent := [] } := by
  rw [refreshToken_unfold]; simp only [hurl]; rfl

theorem refreshToken_doError {σ : Type} (h : HTTP σ) (options : KeepAliveOptions)
    (loginInfo : LoginInfo) (token : GoString) (s s1 : σ) (e : String)
    (hurl : h.validURL (sprintfURL options.APIHost options.Port options.PingPath) = true)
    (hdo : h.roundTrip s (refreshRequest options token) = (Reply.doError e, s1)) :
    refreshToken h options loginInfo token s =
      { result := ([], some (GoError.transport e)), state := s1,
        sent := [refreshRequest options token] } := by
  rw [refreshToken_unfold]; simp only [hurl, hdo, if_true]

theorem refreshToken_readError {σ : Type} (h : HTTP σ) (options : KeepAliveOptions)
    (loginInfo : LoginInfo) (token : GoString) (s s1 : σ) (status : Nat) (e : String)
    (hurl : h.validURL (sprintfURL options.APIHost options.Port options.PingPath) = true)
    (hdo : h.roundTrip s (refreshRequest options token) = (Reply.readError status e, s1)) :
    refreshToken h options loginInfo token s =
      { result := ([], some (GoError.read e)), state := s1,
        sent := [refreshRequest options token] } := by
  rw [refreshToken_unfold]; simp only [hurl, hdo, if_true]

theorem refreshToken_jsonError {σ : Type} (h : HTTP σ) (options : KeepAliveOptions)
    (loginInfo : LoginInfo) (token : GoString) (s s1 : σ) (status : Nat) (body : GoString)
    (err : JSONError)
    (hurl : h.validURL (sprintfURL options.APIHost options.Port options.PingPath) = true)
    (hdo : h.roundTrip s (refreshRequest options token) = (Reply.complete status body, s1))
    (hjson : jsonUnmarshalRefreshResponse body = Except.error err) :
    refreshToken h options loginInfo token s =
      { result := ([], some (GoError.json err)), state := s1,
        sent := [refreshRequest options token] } := by
  rw [refreshToken_unfold]; simp only [hurl, hdo, hjson, if_true]

theorem refreshToken_refreshed {σ : Type} (h : HTTP σ) (options : KeepAliveOptions)
    (loginInfo : LoginInfo) (token : GoString) (s s1 : σ) (status : Nat) (body : GoString)
    (r : RefreshResponse)
    (hurl : h.validURL (sprintfURL options.APIHost options.Port options.PingPath) = true)
    (hdo : h.roundTrip s (refreshRequest options token) = (Reply.complete status body, s1))
    (hjson : jsonUnmarshalRefreshResponse body = Except.ok r) (hr : r.Success = true) :
    refreshToken h options loginInfo token s =
      { result := (token, none), state := s1, sent := [refreshRequest options token] } := by
  rw [refreshToken_unfold]; simp [hurl, hdo, hjson, hr]

theorem refreshToken_fallback {σ : Type} (h : HTTP σ) (options : KeepAliveOptions)
    (loginInfo : LoginInfo) (token : GoString) (s s1 : σ) (status : Nat) (body : GoString)
    (r : RefreshResponse)
    (hurl : h.validURL (sprintfURL options.APIHost options.Port options.PingPath) = true)
    (hdo : h.roundTrip s (refreshRequest options token) = (Reply.complete status body, s1))
    (hjson : jsonUnmarshalRefreshResponse body = Except.ok r) (hr : r.Success = false) :
    refreshToken h options loginInfo token s =
      { result := (login h options loginInfo s1).result,
        state := (login h options loginInfo s1).state,
        sent := refreshRequest options token :: (login h options loginInfo s1).sent } := by
  rw [refreshToken_unfold]; simp [hurl, hdo, hjson, hr]

theorem loginRequest_ne_refreshRequest (options : KeepAliveOptions) (loginInfo : LoginInfo)
    (token : GoString) : loginRequest options loginInfo ≠ refreshRequest options token := by
  intro hEq
  have hm := congrArg Request.method hEq
  simp [loginRequest, refreshRequest] at hm

/-- The requests of `login`: its one request, or none when the URL is
rejected. -/
theorem login_sent {σ : Type} (h : HTTP σ) (options : KeepAliveOptions) (loginInfo : LoginInfo)
    (s : σ) :
    (login h options loginInfo s).sent =
      if h.validURL (sprintfURL options.APIHost options.Port options.LoginPath) = true then
        [loginRequest options loginInfo] else [] := by
  rw [login_unfold]
  by_cases hv : h.validURL (sprintfURL options.APIHost options.Port options.LoginPath) = true
  · simp only [hv, if_true]
    rcases h.roundTrip s (loginRequest options loginInfo) with ⟨_ | _ | ⟨st, body⟩, s1⟩
    · rfl
    · rfl
    · simp only
      rcases jsonUnmarshalLoginResponse body with e | r <;> rfl
  · simp [hv]

/-- C1: when the refresh request is built, the exchange completes and the body decodes into a
`RefreshResponse` with `Success = true`, `refreshToken` returns the existing token itself and
no error, whatever the message and the status code are, and the only request made is the
refresh GET: no login request. -/
theorem refreshToken_success_returns_existing_token {σ : Type} (h : HTTP σ)
    (options : KeepAliveOptions) (loginInfo : LoginInfo) (token : GoString) (s s1 : σ)
    (status : Nat) (body message : GoString)
    (hurl : h.validURL (sprintfURL options.APIHost options.Port options.PingPath) = true)
    (hdo : h.roundTrip s (refreshRequest options token) = (Reply.complete status body, s1))
    (hjson : jsonUnmarshalRefreshResponse body =
      Except.ok { Success := true, Message := message }) :
    (refreshToken h options loginInfo token s).result = (token, none) ∧
    (refreshToken h options loginInfo token s).sent = [refreshRequest options token] ∧
    (refreshRequest options token).method = Method.GET ∧
    loginRequest options loginInfo ∉ (refreshToken h options loginInfo token s).sent ∧
    (refreshToken h options loginInfo token s).sent.length = 1 := by
  rw [refreshToken_refreshed h options loginInfo token s s1 status body _ hurl hdo hjson rfl]
  have hne := loginRequest_ne_refreshRequest options loginInfo token
  simp [hne]
  rfl

/-- C1, at a concrete input: the refresh endpoint answers `{"success": true, "message":
"ok"}` and the existing token `T0` comes back. -/
theorem refreshToken_success_returns_existing_token_witness :
    (fixedServer (Reply.complete 200 (bytes "\x7b\"success\": true, \"message\": \"ok\"\x7d"))
        (Reply.complete 200 (bytes "\x7b\"token\": \"abc123\"\x7d"))).validURL
      (sprintfURL (optionsOf defaultFlags).APIHost (optionsOf defaultFlags).Port
        (optionsOf defaultFlags).PingPath) = true ∧
    jsonUnmarshalRefreshResponse (bytes "\x7b\"success\": true, \"message\": \"ok\"\x7d") =
      Except.ok { Success := true, Message := bytes "ok" } ∧
    (refreshToken (fixedServer
        (Reply.complete 200 (bytes "\x7b\"success\": true, \"message\": \"ok\"\x7d"))
        (Reply.complete 200 (bytes "\x7b\"token\": \"abc123\"\x7d")))
      (optionsOf defaultFlags) sampleLogin (bytes "T0") ()).result = (bytes "T0", none) :=
  ⟨by rfl, by rfl,
    (refreshToken_success_returns_existing_token _ (optionsOf defaultFlags) sampleLogin
      (bytes "T0") () () 200 _ (bytes "ok") (by rfl) (by rfl) (by rfl)).1⟩

/-- C3: when the login request is built, the exchange completes and the body decodes into a
`LoginResponse`, `login` returns the token field of that response, as it is, and no error;
the status code of the response is arbitrary and plays no part. -/
theorem login_returns_token_for_any_status {σ : Type} (h : HTTP σ)
    (options : KeepAliveOptions) (loginInfo : LoginInfo) (s s1 : σ) (status : Nat)
    (body : GoString) (r : LoginResponse)
    (hurl : h.validURL (sprintfURL options.APIHost options.Port options.LoginPath) = true)
    (hdo : h.roundTrip s (loginRequest options loginInfo) = (Reply.complete status body, s1))
    (hjson : jsonUnmarshalLoginResponse body = Except.ok r) :
    (login h options loginInfo s).result = (r.Token, none) := by
  rw [login_ok h options loginInfo s s1 status body r hurl hdo hjson]

/-- C3, at a concrete input: a response with status 500 and body `{"token": "abc123"}` makes
`login` return `abc123`. -/
theorem login_returns_token_for_any_status_witness :
    jsonUnmarshalLoginResponse (bytes "\x7b\"token\": \"abc123\"\x7d") =
      Except.ok { Token := bytes "abc123" } ∧
    (login (fixedServer (Reply.doError "unused")
        (Reply.complete 500 (bytes "\x7b\"token\": \"abc123\"\x7d")))
      (optionsOf defaultFlags) sampleLogin ()).result = (bytes "abc123", none) :=
  ⟨by rfl,
    login_returns_token_for_any_status _ (optionsOf defaultFlags) sampleLogin () () 500 _
      { Token := bytes "abc123" } (by rfl) (by rfl) (by rfl)⟩

/-- C4: when the refresh request cannot be built, or `client.Do` fails, or reading the body
fails, or the body is not JSON, or the body does not decode into a `RefreshResponse`, then
`refreshToken` returns an error and an empty token, and makes no login request: the requests
made are at most the refresh request. -/
theorem refreshToken_failure_makes_no_login_request {σ : Type} (h : HTTP σ)
    (options : KeepAliveOptions) (loginInfo : LoginInfo) (token : GoString) (s : σ)
    (hfail :
      h.validURL (sprintfURL options.APIHost options.Port options.PingPath) = false ∨
      (∃ e, (h.roundTrip s (refreshRequest options token)).1 = Reply.doError e) ∨
      (∃ status e, (h.roundTrip s (refreshRequest options token)).1 = Reply.readError status e) ∨
      (∃ status body, (h.roundTrip s (refreshRequest options token)).1 =
          Reply.complete status body ∧ parseJSON body = none) ∨
      (∃ status body err, (h.roundTrip s (refreshRequest options token)).1 =
          Reply.complete status body ∧ jsonUnmarshalRefreshResponse body = Except.error err)) :
    (∃ err, (refreshToken h options loginInfo token s).result = ([], some err)) ∧
    ((refreshToken h options loginInfo token s).sent = [] ∨
      (refreshToken h options loginInfo token s).sent = [refreshRequest options token]) ∧
    loginRequest options loginInfo ∉ (refreshToken h options loginInfo token s).sent ∧
    ∀ q ∈ (refreshToken h options loginInfo token s).sent, q.method ≠ Method.POST := by
  have hne := loginRequest_ne_refreshRequest options loginInfo token
  have hget : (refreshRequest options token).method ≠ Method.POST := by
    simp [refreshRequest]
  by_cases hurl : h.validURL (sprintfURL options.APIHost options.Port options.PingPath) = true
  · have key : (∃ e, (h.roundTrip s (refreshRequest options token)).1 = Reply.doError e) ∨
        (∃ status e, (h.roundTrip s (refreshRequest options token)).1 =
          Reply.readError status e) ∨
        (∃ status body err, (h.roundTrip s (refreshRequest options token)).1 =
          Reply.complete status body ∧ jsonUnmarshalRefreshResponse body = Except.error err) := by
      rcases hfail with hbad | hd | hr | ⟨status, body, hb, hp⟩ | hj
      · rw [hbad] at hurl; cases hurl
      · exact Or.inl hd
      · exact Or.inr (Or.inl hr)
      · refine Or.inr (Or.inr ⟨status, body, JSONError.malformed, hb, ?_⟩)
        simp [jsonUnmarshalRefreshResponse, hp, storeStruct]
      · exact Or.inr (Or.inr hj)
    have hpair : h.roundTrip s (refreshRequest options token) =
        ((h.roundTrip s (refreshRequest options token)).1,
          (h.roundTrip s (refreshRequest options token)).2) := rfl
    rcases key with ⟨e, he⟩ | ⟨status, e, he⟩ | ⟨status, body, err, he, hj⟩
    · rw [he] at hpair
      rw [refreshToken_doError h options loginInfo token s _ e hurl hpair]
      simp [hne, hget]
    · rw [he] at hpair
      rw [refreshToken_readError h options loginInfo token s _ status e hurl hpair]
      simp [hne, hget]
    · rw [he] at hpair
      rw [refreshToken_jsonError h options loginInfo token s _ status body err hurl hpair hj]
      simp [hne, hget]
  · have hurl2 : h.validURL (sprintfURL options.APIHost options.Port options.PingPath) = false := by
      simpa using hurl
    rw [refreshToken_badURL h options loginInfo token s hurl2]
    simp

/-- C4, at a concrete input: the refresh endpoint refuses the connection, and the
login endpoint, though it would answer, is not asked. -/
theorem refreshToken_failure_makes_no_login_request_witness :
    (∃ err, (refreshToken (fixedServer (Reply.doError "connection refused")
        (Reply.complete 200 (bytes "\x7b\"token\": \"abc123\"\x7d")))
      (optionsOf defaultFlags) sampleLogin (bytes "T0") ()).result = ([], some err)) ∧
    loginRequest (optionsOf defaultFlags) sampleLogin ∉
      (refreshToken (fixedServer (Reply.doError "connection refused")
        (Reply.complete 200 (bytes "\x7b\"token\": \"abc123\"\x7d")))
      (optionsOf defaultFlags) sampleLogin (bytes "T0") ()).sent :=
  have w := refreshToken_failure_makes_no_login_request
    (fixedServer (Reply.doError "connection refused")
      (Reply.complete 200 (bytes "\x7b\"token\": \"abc123\"\x7d")))
    (optionsOf defaultFlags) sampleLogin (bytes "T0") ()
    (Or.inr (Or.inl ⟨"connection refused", rfl⟩))
  ⟨w.1, w.2.2.1⟩

/-- C6: when `loginEmail` or `loginPassword` is empty, whatever the other flags are, `main`
passes no request to the HTTP client, writes the one line
`loginEmail and loginPassword are required` and nothing else, and returns without a panic. -/
theorem main_without_credentials {σ : Type} (h : HTTP σ) (flags : Flags) (s : σ)
    (hempty : flags.loginEmail = [] ∨ flags.loginPassword = []) :
    (main h flags s).sent = [] ∧
    (main h flags s).stdout = bytes "loginEmail and loginPassword are required" ++ [0x0A] ∧
    (main h flags s).exit = Exit.returned ∧
    (main h flags s).state = s := by
  simp [main, hempty, println]

/-- C6, at a concrete input: a password but no email, and a token. -/
theorem main_without_credentials_witness :
    (main (fixedServer (Reply.doError "unused") (Reply.doError "unused"))
      { defaultFlags with loginPassword := bytes "p", token := bytes "T0" } ()).sent = [] ∧
    (main (fixedServer (Reply.doError "unused") (Reply.doError "unused"))
      { defaultFlags with loginPassword := bytes "p", token := bytes "T0" } ()).exit =
      Exit.returned :=
  have w := main_without_credentials (fixedServer (Reply.doError "unused") (Reply.doError "unused"))
    { defaultFlags with loginPassword := bytes "p", token := bytes "T0" } () (Or.inl rfl)
  ⟨w.1, w.2.2.1⟩

theorem main_without_creds_exit {σ : Type} (h : HTTP σ) (flags : Flags) (s : σ)
    (hempty : flags.loginEmail = [] ∨ flags.loginPassword = []) :
    (main h flags s).exit = Exit.returned := by
  simp [main, hempty]

theorem main_login_ok {σ : Type} (h : HTTP σ) (flags : Flags) (s : σ)
    (hemail : flags.loginEmail ≠ []) (hpassword : flags.loginPassword ≠ [])
    (htoken : flags.token = [])
    (hres : (login h (optionsOf flags) (loginInfoOf flags) s).result.2 = none) :
    main h flags s =
      { stdout := (login h (optionsOf flags) (loginInfoOf flags) s).result.1 ++ [0x0A],
        exit := Exit.returned,
        state := (login h (optionsOf flags) (loginInfoOf flags) s).state,
        sent := (login h (optionsOf flags) (loginInfoOf flags) s).sent } := by
  simp only [optionsOf, loginInfoOf] at hres ⊢
  simp only [main, hemail, hpassword, htoken, or_self, if_false, if_true, hres, println]

theorem main_login_error {σ : Type} (h : HTTP σ) (flags : Flags) (s : σ)
    (hemail : flags.loginEmail ≠ []) (hpassword : flags.loginPassword ≠ [])
    (htoken : flags.token = []) (err : GoError)
    (hres : (login h (optionsOf flags) (loginInfoOf flags) s).result.2 = some err) :
    main h flags s =
      { stdout := [], exit := Exit.panicked err,
        state := (login h (optionsOf flags) (loginInfoOf flags) s).state,
        sent := (login h (optionsOf flags) (loginInfoOf flags) s).sent } := by
  simp only [optionsOf, loginInfoOf] at hres ⊢
  simp only [main, hemail, hpassword, htoken, or_self, if_false, if_true, hres]

theorem main_refresh_ok {σ : Type} (h : HTTP σ) (flags : Flags) (s : σ)
    (hemail : flags.loginEmail ≠ []) (hpassword : flags.loginPassword ≠ [])
    (htoken : flags.token ≠ [])
    (hres : (refreshToken h (optionsOf flags) (loginInfoOf flags) flags.token s).result.2 = none) :
    main h flags s =
      { stdout :=
          (refreshToken h (optionsOf flags) (loginInfoOf flags) flags.token s).result.1 ++ [0x0A],
        exit := Exit.returned,
        state := (refreshToken h (optionsOf flags) (loginInfoOf flags) flags.token s).state,
        sent := (refreshToken h (optionsOf flags) (loginInfoOf flags) flags.token s).sent } := by
  simp only [optionsOf, loginInfoOf] at hres ⊢
  simp only [main, hemail, hpassword, htoken, or_self, if_false, hres, println]

theorem main_refresh_error {σ : Type} (h : HTTP σ) (flags : Flags) (s : σ)
    (hemail : flags.loginEmail ≠ []) (hpassword : flags.loginPassword ≠ [])
    (htoken : flags.token ≠ []) (err : GoError)
    (hres : (refreshToken h (optionsOf flags) (loginInfoOf flags) flags.token s).result.2 =
      some err) :
    main h flags s =
      { stdout := [], exit := Exit.panicked err,
        state := (refreshToken h (optionsOf flags) (loginInfoOf flags) flags.token s).state,
        sent := (refreshToken h (optionsOf flags) (loginInfoOf flags) flags.token s).sent } := by
  simp only [optionsOf, loginInfoOf] at hres ⊢
  simp only [main, hemail, hpassword, htoken, or_self, if_false, hres]

/-- C7: with both credentials present, `main` runs `login` when the token flag is empty, and
then every request made is the login POST, never the refresh request; otherwise it runs
`refreshToken` with the token of the flag. When the call it chose returns no error, standard
output is exactly the returned token and a newline, and `main` returns. -/
theorem main_chooses_login_or_refresh {σ : Type} (h : HTTP σ) (flags : Flags) (s : σ)
    (hemail : flags.loginEmail ≠ []) (hpassword : flags.loginPassword ≠ []) :
    (flags.token = [] →
      (main h flags s).sent = (login h (optionsOf flags) (loginInfoOf flags) s).sent ∧
      (main h flags s).state = (login h (optionsOf flags) (loginInfoOf flags) s).state ∧
      (∀ q ∈ (main h flags s).sent, q = loginRequest (optionsOf flags) (loginInfoOf flags)) ∧
      (∀ token, refreshRequest (optionsOf flags) token ∉ (main h flags s).sent) ∧
      ((login h (optionsOf flags) (loginInfoOf flags) s).result.2 = none →
        (main h flags s).stdout =
          (login h (optionsOf flags) (loginInfoOf flags) s).result.1 ++ [0x0A] ∧
        (main h flags s).exit = Exit.returned)) ∧
    (flags.token ≠ [] →
      (main h flags s).sent =
        (refreshToken h (optionsOf flags) (loginInfoOf flags) flags.token s).sent ∧
      (main h flags s).state =
        (refreshToken h (optionsOf flags) (loginInfoOf flags) flags.token s).state ∧
      ((refreshToken h (optionsOf flags) (loginInfoOf flags) flags.token s).result.2 = none →
        (main h flags s).stdout =
          (refreshToken h (optionsOf flags) (loginInfoOf flags) flags.token s).result.1 ++
            [0x0A] ∧
        (main h flags s).exit = Exit.returned)) := by
  constructor
  · intro htoken
    have hmain : (main h flags s).sent = (login h (optionsOf flags) (loginInfoOf flags) s).sent ∧
        (main h flags s).state = (login h (optionsOf flags) (loginInfoOf flags) s).state ∧
        ((login h (optionsOf flags) (loginInfoOf flags) s).result.2 = none →
          (main h flags s).stdout =
            (login h (optionsOf flags) (loginInfoOf flags) s).result.1 ++ [0x0A] ∧
          (main h flags s).exit = Exit.returned) := by
      cases hres : (login h (optionsOf flags) (loginInfoOf flags) s).result.2 with
      | none => rw [main_login_ok h flags s hemail hpassword htoken hres]; simp
      | some err => rw [main_login_error h flags s hemail hpassword htoken err hres]; simp
    refine ⟨hmain.1, hmain.2.1, ?_, ?_, hmain.2.2⟩
    · intro q hq
      rw [hmain.1, login_sent] at hq
      split at hq
      · simpa using hq
      · simp at hq
    · intro token hq
      rw [hmain.1, login_sent] at hq
      split at hq
      · simp only [List.mem_singleton] at hq
        exact loginRequest_ne_refreshRequest _ _ _ hq.symm
      · simp at hq
  · intro htoken
    cases hres : (refreshToken h (optionsOf flags) (loginInfoOf flags) flags.token s).result.2 with
    | none => rw [main_refresh_ok h flags s hemail hpassword htoken hres]; simp
    | some err => rw [main_refresh_error h flags s hemail hpassword htoken err hres]; simp

/-- C7, at a concrete input: no token flag, and a login endpoint that answers
`{"token": "abc123"}`; standard output is `abc123` and a newline. -/
theorem main_chooses_login_or_refresh_witness :
    (main (fixedServer (Reply.doError "unused")
        (Reply.complete 200 (bytes "\x7b\"token\": \"abc123\"\x7d")))
      { defaultFlags with loginEmail := bytes "a@b.com", loginPassword := bytes "p" } ()).stdout =
      bytes "abc123\n" :=
  ((main_chooses_login_or_refresh
    (fixedServer (Reply.doError "unused")
      (Reply.complete 200 (bytes "\x7b\"token\": \"abc123\"\x7d")))
    { defaultFlags with loginEmail := bytes "a@b.com", loginPassword := bytes "p" } ()
    (by decide) (by decide)).1 (by rfl)).2.2.2.2 (by rfl) |>.1

/-- C2, as stated, fails: the refresh endpoint answers `{"success": false, "message":
"expired"}`, so `refreshToken` goes on to `login`; the login path has a line feed in it, so
`http.NewRequest` rejects the login URL and `login` returns that error before it sends
anything. The refresh request is the only request made: no login request follows it. -/
theorem refreshToken_fallback_without_login_request :
    jsonUnmarshalRefreshResponse (bytes "\x7b\"success\": false, \"message\": \"expired\"\x7d") =
      Except.ok { Success := false, Message := bytes "expired" } ∧
    (refreshToken
      (fixedServer (Reply.complete 200
          (bytes "\x7b\"success\": false, \"message\": \"expired\"\x7d"))
        (Reply.complete 200 (bytes "\x7b\"token\": \"abc123\"\x7d")))
      { optionsOf defaultFlags with LoginPath := bytes "\n" } sampleLogin (bytes "T0") ()).sent =
      [refreshRequest { optionsOf defaultFlags with LoginPath := bytes "\n" } (bytes "T0")] ∧
    ((refreshToken
      (fixedServer (Reply.complete 200
          (bytes "\x7b\"success\": false, \"message\": \"expired\"\x7d"))
        (Reply.complete 200 (bytes "\x7b\"token\": \"abc123\"\x7d")))
      { optionsOf defaultFlags with LoginPath := bytes "\n" } sampleLogin (bytes "T0") ()).sent.filter
        (fun q => q.method == Method.POST)).length = 0 ∧
    (refreshToken
      (fixedServer (Reply.complete 200
          (bytes "\x7b\"success\": false, \"message\": \"expired\"\x7d"))
        (Reply.complete 200 (bytes "\x7b\"token\": \"abc123\"\x7d")))
      { optionsOf defaultFlags with LoginPath := bytes "\n" } sampleLogin (bytes "T0") ()).result =
      ([], some (GoError.badURL (bytes "http://localhost:4000/\n"))) := by
  refine ⟨by rfl, by rfl, by rfl, by rfl⟩

/-- C2, amended: when the refresh request is built, the exchange completes and leaves the
server in state `s1`, and the body decodes with `Success = false`, the pair that
`refreshToken` returns is the pair that `login` returns from `s1` for the same options and
credentials, in which the token does not occur, so that another token whose refresh
exchange ends alike gives the same result; the requests made are the refresh request followed
by those of that login call, which are the one login request when `http.NewRequest` accepts
the login URL and none when it rejects it. -/
theorem refreshToken_fallback_is_login {σ : Type} (h : HTTP σ)
    (options : KeepAliveOptions) (loginInfo : LoginInfo) (token : GoString) (s s1 : σ)
    (status : Nat) (body message : GoString)
    (hurl : h.validURL (sprintfURL options.APIHost options.Port options.PingPath) = true)
    (hdo : h.roundTrip s (refreshRequest options token) = (Reply.complete status body, s1))
    (hjson : jsonUnmarshalRefreshResponse body =
      Except.ok { Success := false, Message := message }) :
    (refreshToken h options loginInfo token s).result = (login h options loginInfo s1).result ∧
    (refreshToken h options loginInfo token s).state = (login h options loginInfo s1).state ∧
    (refreshToken h options loginInfo token s).sent =
      refreshRequest options token :: (login h options loginInfo s1).sent ∧
    (login h options loginInfo s1).sent =
      (if h.validURL (sprintfURL options.APIHost options.Port options.LoginPath) = true then
        [loginRequest options loginInfo] else []) ∧
    (h.validURL (sprintfURL options.APIHost options.Port options.LoginPath) = true →
      (refreshToken h options loginInfo token s).sent =
        [refreshRequest options token, loginRequest options loginInfo]) ∧
    (∀ token2 status2 body2 message2,
      h.roundTrip s (refreshRequest options token2) = (Reply.complete status2 body2, s1) →
      jsonUnmarshalRefreshResponse body2 =
        Except.ok { Success := false, Message := message2 } →
      (refreshToken h options loginInfo token2 s).result =
        (refreshToken h options loginInfo token s).result) := by
  rw [refreshToken_fallback h options loginInfo token s s1 status body _ hurl hdo hjson rfl]
  refine ⟨rfl, rfl, rfl, login_sent h options loginInfo s1, ?_, ?_⟩
  · intro hlogin
    simp [login_sent, hlogin]
  · intro token2 status2 body2 message2 hdo2 hjson2
    rw [refreshToken_fallback h options loginInfo token2 s s1 status2 body2 _ hurl hdo2 hjson2
      rfl]

/-- C2 amended, at a concrete input: the refresh endpoint answers `{"success": false,
"message": "expired"}` and the login endpoint `{"token": "abc123"}`. -/
theorem refreshToken_fallback_is_login_witness :
    (refreshToken
      (fixedServer (Reply.complete 200
          (bytes "\x7b\"success\": false, \"message\": \"expired\"\x7d"))
        (Reply.complete 200 (bytes "\x7b\"token\": \"abc123\"\x7d")))
      (optionsOf defaultFlags) sampleLogin (bytes "T0") ()).result =
    (login
      (fixedServer (Reply.complete 200
          (bytes "\x7b\"success\": false, \"message\": \"expired\"\x7d"))
        (Reply.complete 200 (bytes "\x7b\"token\": \"abc123\"\x7d")))
      (optionsOf defaultFlags) sampleLogin ()).result ∧
    (refreshToken
      (fixedServer (Reply.complete 200
          (bytes "\x7b\"success\": false, \"message\": \"expired\"\x7d"))
        (Reply.complete 200 (bytes "\x7b\"token\": \"abc123\"\x7d")))
      (optionsOf defaultFlags) sampleLogin (bytes "T0") ()).sent =
      [refreshRequest (optionsOf defaultFlags) (bytes "T0"),
        loginRequest (optionsOf defaultFlags) sampleLogin] :=
  have w := refreshToken_fallback_is_login
    (fixedServer (Reply.complete 200
        (bytes "\x7b\"success\": false, \"message\": \"expired\"\x7d"))
      (Reply.complete 200 (bytes "\x7b\"token\": \"abc123\"\x7d")))
    (optionsOf defaultFlags) sampleLogin (bytes "T0") () () 200 _ (bytes "expired")
    (by rfl) (by rfl) (by rfl)
  ⟨w.1, w.2.2.2.2.1 (by rfl)⟩

/-- C5, as stated, fails: the bodies `{}` and `{"message": "x"}` are JSON, neither states
`success`, and `refreshToken` falls back to `login` on each: the login request is made and
its token returned. -/
theorem refreshToken_fallback_without_explicit_false :
    statesSuccessFalse (bytes "\x7b\x7d") = false ∧
    statesSuccessFalse (bytes "\x7b\"message\": \"x\"\x7d") = false ∧
    (refreshToken
      (fixedServer (Reply.complete 200 (bytes "\x7b\x7d"))
        (Reply.complete 200 (bytes "\x7b\"token\": \"abc123\"\x7d")))
      (optionsOf defaultFlags) sampleLogin (bytes "T0") ()).sent =
      [refreshRequest (optionsOf defaultFlags) (bytes "T0"),
        loginRequest (optionsOf defaultFlags) sampleLogin] ∧
    (refreshToken
      (fixedServer (Reply.complete 200 (bytes "\x7b\x7d"))
        (Reply.complete 200 (bytes "\x7b\"token\": \"abc123\"\x7d")))
      (optionsOf defaultFlags) sampleLogin (bytes "T0") ()).result = (bytes "abc123", none) ∧
    (refreshToken
      (fixedServer (Reply.complete 200 (bytes "\x7b\"message\": \"x\"\x7d"))
        (Reply.complete 200 (bytes "\x7b\"token\": \"abc123\"\x7d")))
      (optionsOf defaultFlags) sampleLogin (bytes "T0") ()).sent =
      [refreshRequest (optionsOf defaultFlags) (bytes "T0"),
        loginRequest (optionsOf defaultFlags) sampleLogin] := by
  refine ⟨by rfl, by rfl, by rfl, by rfl, by rfl⟩

theorem login_result_ok {σ : Type} (h : HTTP σ) (options : KeepAliveOptions)
    (loginInfo : LoginInfo) (s : σ) (tok : GoString)
    (hres : (login h options loginInfo s).result = (tok, none)) :
    LoginYields h options loginInfo s tok := by
  rw [login_unfold] at hres
  by_cases hv : h.validURL (sprintfURL options.APIHost options.Port options.LoginPath) = true
  · simp only [hv, if_true] at hres
    refine ⟨hv, ?_⟩
    rcases hrt : h.roundTrip s (loginRequest options loginInfo) with ⟨_ | _ | ⟨st, body⟩, s1⟩
    · rw [hrt] at hres; simp at hres
    · rw [hrt] at hres; simp at hres
    · rw [hrt] at hres
      simp only at hres
      rcases hj : jsonUnmarshalLoginResponse body with e | r
      · rw [hj] at hres; simp at hres
      · rw [hj] at hres
        simp only [Prod.mk.injEq, and_true] at hres
        exact ⟨st, body, s1, r, rfl, hj, hres⟩
  · simp [hv] at hres

theorem refreshToken_result_ok {σ : Type} (h : HTTP σ) (options : KeepAliveOptions)
    (loginInfo : LoginInfo) (token : GoString) (s : σ) (tok : GoString)
    (hres : (refreshToken h options loginInfo token s).result = (tok, none)) :
    (∃ s1, RefreshReports h options token s true s1 ∧ tok = token) ∨
    (∃ s1, RefreshReports h options token s false s1 ∧ LoginYields h options loginInfo s1 tok) := by
  rw [refreshToken_unfold] at hres
  by_cases hv : h.validURL (sprintfURL options.APIHost options.Port options.PingPath) = true
  · simp only [hv, if_true] at hres
    rcases hrt : h.roundTrip s (refreshRequest options token) with ⟨_ | _ | ⟨st, body⟩, s1⟩
    · rw [hrt] at hres; simp at hres
    · rw [hrt] at hres; simp at hres
    · rw [hrt] at hres
      simp only at hres
      rcases hj : jsonUnmarshalRefreshResponse body with e | r
      · rw [hj] at hres; simp at hres
      · rw [hj] at hres
        cases hS : r.Success with
        | false =>
          simp only [hS, if_true] at hres
          exact Or.inr ⟨s1, ⟨hv, st, body, r, hrt, hj, hS⟩, login_result_ok h options loginInfo s1 tok hres⟩
        | true =>
          simp [hS] at hres
          exact Or.inl ⟨s1, ⟨hv, st, body, r, hrt, hj, hS⟩, hres.symm⟩
  · simp [hv] at hres

/-- C8: a token comes out only of a login that succeeded or of a refresh that reported
success. If `login` returns a token and no error, the login exchange completed and the token is
the token field of the decoded response. If `refreshToken` returns a token and no error, either
the refresh response had `Success = true` and the token is the existing token, or it had
`Success = false` and the token is that of a login that succeeded. If `main`, given both
credentials, returns, its output is one such token and a newline; if it panics it has written
nothing. When `login` is called and the login endpoint cannot be reached, `login` returns an
error, and `main`, whether it called `login` itself or through the fallback of
`refreshToken`, panics with that error and writes nothing. -/
theorem token_only_from_login_or_refresh {σ : Type} (h : HTTP σ) (options : KeepAliveOptions)
    (loginInfo : LoginInfo) (flags : Flags) (token tok : GoString) (s : σ) :
    ((login h options loginInfo s).result = (tok, none) → LoginYields h options loginInfo s tok) ∧
    ((refreshToken h options loginInfo token s).result = (tok, none) →
      (∃ s1, RefreshReports h options token s true s1 ∧ tok = token) ∨
      (∃ s1, RefreshReports h options token s false s1 ∧
        LoginYields h options loginInfo s1 tok)) ∧
    (flags.loginEmail ≠ [] → flags.loginPassword ≠ [] →
      (main h flags s).exit = Exit.returned →
      ∃ t, (main h flags s).stdout = t ++ [0x0A] ∧
        ((flags.token = [] ∧ LoginYields h (optionsOf flags) (loginInfoOf flags) s t) ∨
         (flags.token ≠ [] ∧
          ((∃ s1, RefreshReports h (optionsOf flags) flags.token s true s1 ∧ t = flags.token) ∨
           (∃ s1, RefreshReports h (optionsOf flags) flags.token s false s1 ∧
             LoginYields h (optionsOf flags) (loginInfoOf flags) s1 t))))) ∧
    ((main h flags s).exit ≠ Exit.returned → (main h flags s).stdout = []) ∧
    (h.validURL (sprintfURL options.APIHost options.Port options.LoginPath) = true →
      ∀ e, (h.roundTrip s (loginRequest options loginInfo)).1 = Reply.doError e →
        (login h options loginInfo s).result = ([], some (GoError.transport e))) ∧
    (flags.loginEmail ≠ [] → flags.loginPassword ≠ [] → flags.token = [] →
      h.validURL (sprintfURL flags.apiHost flags.apiPort flags.loginPath) = true →
      ∀ e, (h.roundTrip s (loginRequest (optionsOf flags) (loginInfoOf flags))).1 =
          Reply.doError e →
        (main h flags s).exit = Exit.panicked (GoError.transport e) ∧
        (main h flags s).stdout = []) ∧
    (flags.loginEmail ≠ [] → flags.loginPassword ≠ [] → flags.token ≠ [] →
      h.validURL (sprintfURL flags.apiHost flags.apiPort flags.loginPath) = true →
      ∀ s1 e, RefreshReports h (optionsOf flags) flags.token s false s1 →
        (h.roundTrip s1 (loginRequest (optionsOf flags) (loginInfoOf flags))).1 =
          Reply.doError e →
        (main h flags s).exit = Exit.panicked (GoError.transport e) ∧
        (main h flags s).stdout = []) := by
  refine ⟨login_result_ok h options loginInfo s tok,
    refreshToken_result_ok h options loginInfo token s tok, ?_, ?_, ?_, ?_, ?_⟩
  · intro hemail hpassword hexit
    by_cases htoken : flags.token = []
    · cases hres : (login h (optionsOf flags) (loginInfoOf flags) s).result.2 with
      | none =>
        rw [main_login_ok h flags s hemail hpassword htoken hres]
        refine ⟨_, rfl, Or.inl ⟨htoken, ?_⟩⟩
        exact login_result_ok h _ _ s _ (Prod.ext rfl hres)
      | some err =>
        rw [main_login_error h flags s hemail hpassword htoken err hres] at hexit
        simp at hexit
    · cases hres : (refreshToken h (optionsOf flags) (loginInfoOf flags) flags.token s).result.2 with
      | none =>
        rw [main_refresh_ok h flags s hemail hpassword htoken hres]
        refine ⟨_, rfl, Or.inr ⟨htoken, ?_⟩⟩
        exact refreshToken_result_ok h _ _ _ s _ (Prod.ext rfl hres)
      | some err =>
        rw [main_refresh_error h flags s hemail hpassword htoken err hres] at hexit
        simp at hexit
  · intro hexit
    by_cases hempty : flags.loginEmail = [] ∨ flags.loginPassword = []
    · exact absurd (main_without_creds_exit h flags s hempty) hexit
    · have hemail : flags.loginEmail ≠ [] := fun hc => hempty (Or.inl hc)
      have hpassword : flags.loginPassword ≠ [] := fun hc => hempty (Or.inr hc)
      by_cases htoken : flags.token = []
      · cases hres : (login h (optionsOf flags) (loginInfoOf flags) s).result.2 with
        | none =>
          rw [main_login_ok h flags s hemail hpassword htoken hres] at hexit
          simp at hexit
        | some err => rw [main_login_error h flags s hemail hpassword htoken err hres]
      · cases hres :
          (refreshToken h (optionsOf flags) (loginInfoOf flags) flags.token s).result.2 with
        | none =>
          rw [main_refresh_ok h flags s hemail hpassword htoken hres] at hexit
          simp at hexit
        | some err => rw [main_refresh_error h flags s hemail hpassword htoken err hres]
  · intro hurl e hdo
    rw [login_doError h options loginInfo s _ e hurl (Prod.ext hdo rfl)]
  · intro hemail hpassword htoken hurl e hdo
    have hlogin := login_doError h (optionsOf flags) (loginInfoOf flags) s _ e hurl
      (Prod.ext hdo rfl)
    have hres : (login h (optionsOf flags) (loginInfoOf flags) s).result.2 =
        some (GoError.transport e) := by rw [hlogin]
    rw [main_login_error h flags s hemail hpassword htoken _ hres]
    exact ⟨rfl, rfl⟩
  · intro hemail hpassword htoken hurl s1 e hrefresh hdo
    obtain ⟨hping, status, body, r, hrt, hjson, hS⟩ := hrefresh
    have hlogin := login_doError h (optionsOf flags) (loginInfoOf flags) s1 _ e hurl
      (Prod.ext hdo rfl)
    have hres : (refreshToken h (optionsOf flags) (loginInfoOf flags) flags.token s).result.2 =
        some (GoError.transport e) := by
      rw [refreshToken_fallback h (optionsOf flags) (loginInfoOf flags) flags.token s s1 status
        body r hping hrt hjson hS, hlogin]
    rw [main_refresh_error h flags s hemail hpassword htoken _ hres]
    exact ⟨rfl, rfl⟩

/-- C8, at concrete inputs: a login endpoint that answers `{"token": "abc123"}`, so the token
`login` returns has the stated origin; and a login endpoint that refuses the connection, where
`main` panics and writes nothing. -/
theorem token_only_from_login_or_refresh_witness :
    LoginYields (fixedServer (Reply.doError "unused")
        (Reply.complete 200 (bytes "\x7b\"token\": \"abc123\"\x7d")))
      (optionsOf defaultFlags) sampleLogin () (bytes "abc123") ∧
    ((main (fixedServer (Reply.doError "unused") (Reply.doError "connection refused"))
        { defaultFlags with loginEmail := bytes "a@b.com", loginPassword := bytes "p" } ()).exit =
        Exit.panicked (GoError.transport "connection refused") ∧
      (main (fixedServer (Reply.doError "unused") (Reply.doError "connection refused"))
        { defaultFlags with loginEmail := bytes "a@b.com", loginPassword := bytes "p" } ()).stdout =
        []) :=
  ⟨(token_only_from_login_or_refresh
      (fixedServer (Reply.doError "unused")
        (Reply.complete 200 (bytes "\x7b\"token\": \"abc123\"\x7d")))
      (optionsOf defaultFlags) sampleLogin defaultFlags [] (bytes "abc123") ()).1 (by rfl),
    ((token_only_from_login_or_refresh
      (fixedServer (Reply.doError "unused") (Reply.doError "connection refused"))
      (optionsOf defaultFlags) sampleLogin
      { defaultFlags with loginEmail := bytes "a@b.com", loginPassword := bytes "p" }
      [] [] ()).2.2.2.2.2.1 (by decide) (by decide) (by rfl) (by rfl) "connection refused"
        (by rfl))⟩

theorem statedSuccess_of_no_key (cur : Bool) (members : List (GoString × JValue))
    (hno : ∀ m ∈ members, keyMatches (bytes "success") m.1 = false) :
    statedSuccess cur members = cur := by
  induction members generalizing cur with
  | nil => rfl
  | cons m ms ih =>
    have hm : keyMatches (bytes "success") m.1 = false := hno m (List.mem_cons_self _ _)
    simp only [statedSuccess, hm, Bool.false_eq_true, if_false]
    exact ih cur (fun x hx => hno x (List.mem_cons_of_mem _ hx))

/-- The decoder stores in `Success` what the members keyed `success` state, and nothing
else: no other member changes the field. -/
theorem foldlM_storeRefreshMember_success (members : List (GoString × JValue)) :
    ∀ (r0 r : RefreshResponse), members.foldlM storeRefreshMember r0 = Except.ok r →
      r.Success = statedSuccess r0.Success members := by
  induction members with
  | nil =>
    intro r0 r hf
    simp only [List.foldlM, pure, Except.pure, Except.ok.injEq] at hf
    rw [← hf]; rfl
  | cons m ms ih =>
    intro r0 r hf
    have hb : bytes "success" = [0x73, 0x75, 0x63, 0x63, 0x65, 0x73, 0x73] := by rfl
    rw [List.foldlM_cons] at hf
    cases hstep : storeRefreshMember r0 m with
    | error e => rw [hstep] at hf; cases hf
    | ok r1 =>
      rw [hstep] at hf
      have hrest := ih r1 r hf
      rw [hrest]
      simp only [statedSuccess, hb]
      congr 1
      unfold storeRefreshMember at hstep
      split at hstep
      · rename_i hk
        rw [if_pos hk]
        cases hv : m.2 with
        | bool b =>
          rw [hv] at hstep
          simp only [storeBool, Except.map, Except.ok.injEq] at hstep
          rw [← hstep]
        | null =>
          rw [hv] at hstep
          simp only [storeBool, Except.map, Except.ok.injEq] at hstep
          rw [← hstep]
        | num x => rw [hv] at hstep; simp [storeBool, Except.map] at hstep
        | str x => rw [hv] at hstep; simp [storeBool, Except.map] at hstep
        | arr x => rw [hv] at hstep; simp [storeBool, Except.map] at hstep
        | obj x => rw [hv] at hstep; simp [storeBool, Except.map] at hstep
      · rename_i hk
        rw [if_neg hk]
        split at hstep
        · cases hs : storeString r0.Message m.2 with
          | error e => rw [hs] at hstep; simp [Except.map] at hstep
          | ok x =>
            rw [hs] at hstep
            simp only [Except.map, Except.ok.injEq] at hstep
            rw [← hstep]
        · simp only [Except.ok.injEq] at hstep
          rw [← hstep]

/-- C5, amended: `refreshToken` makes a login request only if the refresh exchange completed
and its body decoded, without error, into a `RefreshResponse` whose `Success` is false; and
whenever the body so decodes it does fall back to `login`. For an object that decodes without
error, `Success` is what the last member keyed `success` with the value `true` or `false`
states, and `false` when there is no such member. So every body that decodes without error
and has no member keyed `success`, such as `{}` and `{"message": "x"}`, and the body `null`,
leads to the login call although it does not state `success` to be `false`. -/
theorem refreshToken_falls_back_iff_success_false {σ : Type} (h : HTTP σ)
    (options : KeepAliveOptions) (loginInfo : LoginInfo) (token : GoString) (s : σ) :
    (loginRequest options loginInfo ∈ (refreshToken h options loginInfo token s).sent →
      ∃ status body s1 r,
        h.roundTrip s (refreshRequest options token) = (Reply.complete status body, s1) ∧
        jsonUnmarshalRefreshResponse body = Except.ok r ∧ r.Success = false) ∧
    (∀ status body s1 r,
      h.validURL (sprintfURL options.APIHost options.Port options.PingPath) = true →
      h.roundTrip s (refreshRequest options token) = (Reply.complete status body, s1) →
      jsonUnmarshalRefreshResponse body = Except.ok r → r.Success = false →
      (refreshToken h options loginInfo token s).result = (login h options loginInfo s1).result ∧
      (refreshToken h options loginInfo token s).sent =
        refreshRequest options token :: (login h options loginInfo s1).sent) ∧
    (∀ body members r, parseJSON body = some (JValue.obj members) →
      jsonUnmarshalRefreshResponse body = Except.ok r →
      r.Success = statedSuccess false members) ∧
    (∀ status body s1 members r,
      h.validURL (sprintfURL options.APIHost options.Port options.PingPath) = true →
      h.roundTrip s (refreshRequest options token) = (Reply.complete status body, s1) →
      parseJSON body = some (JValue.obj members) →
      (∀ m ∈ members, keyMatches (bytes "success") m.1 = false) →
      jsonUnmarshalRefreshResponse body = Except.ok r →
      statesSuccessFalse body = false ∧ r.Success = false ∧
      (refreshToken h options loginInfo token s).result = (login h options loginInfo s1).result ∧
      (refreshToken h options loginInfo token s).sent =
        refreshRequest options token :: (login h options loginInfo s1).sent) ∧
    (∀ status body s1,
      h.validURL (sprintfURL options.APIHost options.Port options.PingPath) = true →
      h.roundTrip s (refreshRequest options token) = (Reply.complete status body, s1) →
      parseJSON body = some JValue.null →
      statesSuccessFalse body = false ∧
      (refreshToken h options loginInfo token s).result = (login h options loginInfo s1).result ∧
      (refreshToken h options loginInfo token s).sent =
        refreshRequest options token :: (login h options loginInfo s1).sent) ∧
    jsonUnmarshalRefreshResponse (bytes "\x7b\x7d") =
      Except.ok { Success := false, Message := [] } ∧
    jsonUnmarshalRefreshResponse (bytes "\x7b\"message\": \"x\"\x7d") =
      Except.ok { Success := false, Message := bytes "x" } := by
  have hne := loginRequest_ne_refreshRequest options loginInfo token
  have hdecoded : ∀ body members r, parseJSON body = some (JValue.obj members) →
      jsonUnmarshalRefreshResponse body = Except.ok r →
      r.Success = statedSuccess false members := by
    intro body members r hparse hjson
    unfold jsonUnmarshalRefreshResponse at hjson
    rw [hparse] at hjson
    exact foldlM_storeRefreshMember_success members _ r hjson
  refine ⟨?_, ?_, hdecoded, ?_, ?_, by rfl, by rfl⟩
  · intro hmem
    rw [refreshToken_unfold] at hmem
    by_cases hv : h.validURL (sprintfURL options.APIHost options.Port options.PingPath) = true
    · simp only [hv, if_true] at hmem
      rcases hrt : h.roundTrip s (refreshRequest options token) with ⟨_ | _ | ⟨st, body⟩, s1⟩
      · rw [hrt] at hmem; simp [hne] at hmem
      · rw [hrt] at hmem; simp [hne] at hmem
      · rw [hrt] at hmem
        simp only at hmem
        rcases hj : jsonUnmarshalRefreshResponse body with e | r
        · rw [hj] at hmem; simp [hne] at hmem
        · cases hS : r.Success with
          | false => exact ⟨st, body, s1, r, rfl, hj, hS⟩
          | true => rw [hj] at hmem; simp [hS, hne] at hmem
    · simp [hv] at hmem
  · intro status body s1 r hurl hdo hjson hS
    rw [refreshToken_fallback h options loginInfo token s s1 status body r hurl hdo hjson hS]
    exact ⟨rfl, rfl⟩
  · intro status body s1 members r hurl hdo hparse hno hjson
    have hS : r.Success = false := by
      rw [hdecoded body members r hparse hjson]
      exact statedSuccess_of_no_key false members hno
    have hstates : statesSuccessFalse body = false := by
      unfold statesSuccessFalse
      rw [hparse]
      simp only [List.any_eq_false]
      intro m hm
      simp [hno m hm]
    rw [refreshToken_fallback h options loginInfo token s s1 status body r hurl hdo hjson hS]
    exact ⟨hstates, hS, rfl, rfl⟩
  · intro status body s1 hurl hdo hparse
    have hjson : jsonUnmarshalRefreshResponse body =
        Except.ok { Success := false, Message := [] } := by
      unfold jsonUnmarshalRefreshResponse
      rw [hparse]; rfl
    have hstates : statesSuccessFalse body = false := by
      unfold statesSuccessFalse
      rw [hparse]
    rw [refreshToken_fallback h options loginInfo token s s1 status body _ hurl hdo hjson rfl]
    exact ⟨hstates, rfl, rfl⟩

/-- C5 amended, at concrete inputs: the refresh endpoint answers `{}`, the login request is
among the requests made, and the theorem finds the decoded `Success = false` behind it; and
the refresh endpoint answers `{"x": 1}`, a body with no member keyed `success`, on which
the theorem gives the fallback to `login`. -/
theorem refreshToken_falls_back_iff_success_false_witness :
    (loginRequest (optionsOf defaultFlags) sampleLogin ∈
      (refreshToken (fixedServer (Reply.complete 200 (bytes "\x7b\x7d"))
          (Reply.complete 200 (bytes "\x7b\"token\": \"abc123\"\x7d")))
        (optionsOf defaultFlags) sampleLogin (bytes "T0") ()).sent ∧
    ∃ status body s1 r,
      (fixedServer (Reply.complete 200 (bytes "\x7b\x7d"))
          (Reply.complete 200 (bytes "\x7b\"token\": \"abc123\"\x7d"))).roundTrip ()
        (refreshRequest (optionsOf defaultFlags) (bytes "T0")) = (Reply.complete status body, s1) ∧
      jsonUnmarshalRefreshResponse body = Except.ok r ∧ r.Success = false) ∧
    (parseJSON (bytes "\x7b\"x\": 1\x7d") = some (JValue.obj [(bytes "x", JValue.num (bytes "1"))]) ∧
    jsonUnmarshalRefreshResponse (bytes "\x7b\"x\": 1\x7d") =
      Except.ok { Success := false, Message := [] } ∧
    (refreshToken (fixedServer (Reply.complete 200 (bytes "\x7b\"x\": 1\x7d"))
        (Reply.complete 200 (bytes "\x7b\"token\": \"abc123\"\x7d")))
      (optionsOf defaultFlags) sampleLogin (bytes "T0") ()).sent =
      refreshRequest (optionsOf defaultFlags) (bytes "T0") ::
        (login (fixedServer (Reply.complete 200 (bytes "\x7b\"x\": 1\x7d"))
          (Reply.complete 200 (bytes "\x7b\"token\": \"abc123\"\x7d")))
        (optionsOf defaultFlags) sampleLogin ()).sent) :=
  have hmem : loginRequest (optionsOf defaultFlags) sampleLogin ∈
      (refreshToken (fixedServer (Reply.complete 200 (bytes "\x7b\x7d"))
          (Reply.complete 200 (bytes "\x7b\"token\": \"abc123\"\x7d")))
        (optionsOf defaultFlags) sampleLogin (bytes "T0") ()).sent :=
    List.mem_cons_of_mem _ (List.mem_singleton.mpr rfl)
  ⟨⟨hmem, (refreshToken_falls_back_iff_success_false _ (optionsOf defaultFlags) sampleLogin
    (bytes "T0") ()).1 hmem⟩,
   by rfl, by rfl,
   ((refreshToken_falls_back_iff_success_false
      (fixedServer (Reply.complete 200 (bytes "\x7b\"x\": 1\x7d"))
        (Reply.complete 200 (bytes "\x7b\"token\": \"abc123\"\x7d")))
      (optionsOf defaultFlags) sampleLogin (bytes "T0") ()).2.2.2.1 200
      (bytes "\x7b\"x\": 1\x7d") () [(bytes "x", JValue.num (bytes "1"))]
      { Success := false, Message := [] } (by rfl) (by rfl) (by rfl)
      (fun m hm => by rw [List.mem_singleton.mp hm]; rfl) (by rfl)).2.2.2⟩

/-- C10: the URL of the login request is `http://`, the host, a colon, the port, a slash and
the login path, and the URL of the refresh request is the same with the refresh path; the path
follows the added slash as it is. These are the requests the two functions hand to the client,
when `http.NewRequest` accepts the URL. With the default flags the URLs are
`http://localhost:4000//api/login` and `http://localhost:4000//api/refresh_session`, with two
slashes. -/
theorem request_urls {σ : Type} (h : HTTP σ) (options : KeepAliveOptions)
    (loginInfo : LoginInfo) (token : GoString) (s : σ) :
    (loginRequest options loginInfo).url =
      bytes "http://" ++ options.APIHost ++ bytes ":" ++ options.Port ++ bytes "/" ++
        options.LoginPath ∧
    (refreshRequest options token).url =
      bytes "http://" ++ options.APIHost ++ bytes ":" ++ options.Port ++ bytes "/" ++
        options.PingPath ∧
    (login h options loginInfo s).sent =
      (if h.validURL (loginRequest options loginInfo).url = true then
        [loginRequest options loginInfo] else []) ∧
    (refreshToken h options loginInfo token s).sent.head? =
      (if h.validURL (refreshRequest options token).url = true then
        some (refreshRequest options token) else none) ∧
    (loginRequest (optionsOf defaultFlags) loginInfo).url =
      bytes "http://localhost:4000//api/login" ∧
    (refreshRequest (optionsOf defaultFlags) token).url =
      bytes "http://localhost:4000//api/refresh_session" := by
  refine ⟨rfl, rfl, login_sent h options loginInfo s, ?_, by rfl, by rfl⟩
  rw [refreshToken_unfold]
  show _ = (if h.validURL (sprintfURL options.APIHost options.Port options.PingPath) = true then
        some (refreshRequest options token) else none)
  by_cases hv : h.validURL (sprintfURL options.APIHost options.Port options.PingPath) = true
  · simp only [hv, if_true]
    rcases h.roundTrip s (refreshRequest options token) with ⟨_ | _ | ⟨st, body⟩, s1⟩
    · rfl
    · rfl
    · simp only
      rcases jsonUnmarshalRefreshResponse body with e | r
      · rfl
      · cases hS : r.Success <;> simp [hS]
  · simp [hv]

theorem hexVal_hexDigit (k : Nat) (hk : k < 16) : hexVal (hexDigit k) = some k := by
  interval_cases k <;> rfl

theorem encodeRune_two (r : Nat) (h1 : 0x80 ≤ r) (h2 : r < 0x800) :
    encodeRune r = [0xC0 + r / 64, 0x80 + r % 64] := by
  unfold encodeRune
  rw [if_neg (by omega), if_pos h2]

theorem encodeRune_three (r : Nat) (h1 : 0x800 ≤ r) (h2 : r < 0x10000)
    (h3 : r < 0xD800 ∨ 0xDFFF < r) :
    encodeRune r = [0xE0 + r / 4096, 0x80 + r / 64 % 64, 0x80 + r % 64] := by
  unfold encodeRune
  rw [if_neg (by omega), if_neg (by omega), if_neg (by omega), if_pos h2]

theorem encodeRune_four (r : Nat) (h1 : 0x10000 ≤ r) (h2 : r ≤ 0x10FFFF) :
    encodeRune r =
      [0xF0 + r / 262144, 0x80 + r / 4096 % 64, 0x80 + r / 64 % 64, 0x80 + r % 64] := by
  unfold encodeRune
  rw [if_neg (by omega), if_neg (by omega), if_neg (by omega), if_neg (by omega)]

/-- A well-formed encoding at the head of a string: `decodeRune` reads exactly
those bytes, whatever follows, and `encodeRune` writes them back. -/
theorem decodeRune_valid (b : Nat) (rest : GoString) (hb : 0x80 ≤ b)
    (hv : decodeRune (b :: rest) ≠ (RuneError, 1)) :
    ∃ pre post, b :: rest = pre ++ post ∧ pre.length = (decodeRune (b :: rest)).2 ∧
      encodeRune (decodeRune (b :: rest)).1 = pre ∧
      (∀ X, decodeRune (pre ++ X) = decodeRune (b :: rest)) ∧
      ∃ pre1, pre = b :: pre1 := by
  have h1 : ¬ b < 0x80 := by omega
  by_cases h2 : b < 0xC2
  · exact absurd (by simp [decodeRune, h1, h2]) hv
  by_cases h3 : b < 0xE0
  · cases rest with
    | nil => exact absurd (by simp [decodeRune, h1, h2, h3]) hv
    | cons b1 r1 =>
      by_cases hb1 : b1 < 0x80 ∨ 0xBF < b1
      · exact absurd (by simp [decodeRune, h1, h2, h3, hb1]) hv
      · have hd : ∀ X, decodeRune (b :: b1 :: X) = (b % 32 * 64 + b1 % 64, 2) := by
          intro X; simp [decodeRune, h1, h2, h3, hb1]
        refine ⟨[b, b1], r1, rfl, ?_, ?_, ?_, ⟨[b1], rfl⟩⟩
        · rw [hd]; rfl
        · rw [hd, encodeRune_two _ (by omega) (by omega)]
          simp only
          congr 1
          · omega
          · congr 1; omega
        · intro X; rw [hd]; exact hd X
  by_cases h4 : b < 0xF0
  · match rest with
    | [] => exact absurd (by simp [decodeRune, h1, h2, h3, h4]) hv
    | [_] => exact absurd (by simp [decodeRune, h1, h2, h3, h4]) hv
    | b1 :: b2 :: r2 =>
      by_cases hb1 : b1 < (if b = 0xE0 then 0xA0 else 0x80) ∨
          (if b = 0xED then 0x9F else 0xBF) < b1
      · exact absurd (by simp [decodeRune, h1, h2, h3, h4, hb1]) hv
      by_cases hb2 : b2 < 0x80 ∨ 0xBF < b2
      · exact absurd (by simp [decodeRune, h1, h2, h3, h4, hb1, hb2]) hv
      have hd : ∀ X, decodeRune (b :: b1 :: b2 :: X) =
          (b % 16 * 4096 + b1 % 64 * 64 + b2 % 64, 3) := by
        intro X; simp [decodeRune, h1, h2, h3, h4, hb1, hb2]
      have hlo : (if b = 0xE0 then 0xA0 else 0x80) ≤ b1 := by omega
      have hhi : b1 ≤ (if b = 0xED then 0x9F else 0xBF) := by omega
      have hb1lo : 0x80 ≤ b1 := by split at hlo <;> omega
      have hb1hi : b1 ≤ 0xBF := by split at hhi <;> omega
      have hE0 : b = 0xE0 → 0xA0 ≤ b1 := by intro hc; simpa [hc] using hlo
      have hED : b = 0xED → b1 ≤ 0x9F := by intro hc; simpa [hc] using hhi
      refine ⟨[b, b1, b2], r2, rfl, ?_, ?_, ?_, ⟨[b1, b2], rfl⟩⟩
      · rw [hd]; rfl
      · rw [hd, encodeRune_three _ (by omega) (by omega) (by omega)]
        simp only
        congr 1
        · omega
        · congr 1
          · omega
          · congr 1; omega
      · intro X; rw [hd]; exact hd X
  by_cases h5 : b < 0xF5
  · match rest with
    | [] => exact absurd (by simp [decodeRune, h1, h2, h3, h4, h5]) hv
    | [_] => exact absurd (by simp [decodeRune, h1, h2, h3, h4, h5]) hv
    | [_, _] => exact absurd (by simp [decodeRune, h1, h2, h3, h4, h5]) hv
    | b1 :: b2 :: b3 :: r3 =>
      by_cases hb1 : b1 < (if b = 0xF0 then 0x90 else 0x80) ∨
          (if b = 0xF4 then 0x8F else 0xBF) < b1
      · exact absurd (by simp [decodeRune, h1, h2, h3, h4, h5, hb1]) hv
      by_cases hb2 : b2 < 0x80 ∨ 0xBF < b2
      · exact absurd (by simp [decodeRune, h1, h2, h3, h4, h5, hb1, hb2]) hv
      by_cases hb3 : b3 < 0x80 ∨ 0xBF < b3
      · exact absurd (by simp [decodeRune, h1, h2, h3, h4, h5, hb1, hb2, hb3]) hv
      have hd : ∀ X, decodeRune (b :: b1 :: b2 :: b3 :: X) =
          (b % 8 * 262144 + b1 % 64 * 4096 + b2 % 64 * 64 + b3 % 64, 4) := by
        intro X; simp [decodeRune, h1, h2, h3, h4, h5, hb1, hb2, hb3]
      have hlo : (if b = 0xF0 then 0x90 else 0x80) ≤ b1 := by omega
      have hhi : b1 ≤ (if b = 0xF4 then 0x8F else 0xBF) := by omega
      have hb1lo : 0x80 ≤ b1 := by split at hlo <;> omega
      have hb1hi : b1 ≤ 0xBF := by split at hhi <;> omega
      have hF0 : b = 0xF0 → 0x90 ≤ b1 := by intro hc; simpa [hc] using hlo
      have hF4 : b = 0xF4 → b1 ≤ 0x8F := by intro hc; simpa [hc] using hhi
      refine ⟨[b, b1, b2, b3], r3, rfl, ?_, ?_, ?_, ⟨[b1, b2, b3], rfl⟩⟩
      · rw [hd]; rfl
      · rw [hd, encodeRune_four _ (by omega) (by omega)]
        simp only
        congr 1
        · omega
        · congr 1
          · omega
          · congr 1
            · omega
            · congr 1; omega
      · intro X; rw [hd]; exact hd X
  · exact absurd (by simp [decodeRune, h1, h2, h3, h4, h5]) hv

theorem unquoteLoop_plain (f c : Nat) (rest : GoString) (h1 : 0x20 ≤ c) (h2 : c < 0x80)
    (h3 : c ≠ 0x22) (h4 : c ≠ 0x5C) :
    unquoteLoop (f + 1) (c :: rest) = consDecoded [c] (unquoteLoop f rest) := by
  have h5 : ¬ c < 0x20 := by omega
  simp [unquoteLoop, h2, h3, h4, h5]

theorem unquoteLoop_multi (f c : Nat) (rest : GoString) (h1 : 0x80 ≤ c) :
    unquoteLoop (f + 1) (c :: rest) =
      consDecoded (encodeRune (decodeRune (c :: rest)).1)
        (unquoteLoop f ((c :: rest).drop (decodeRune (c :: rest)).2)) := by
  have h2 : ¬ c < 0x80 := by omega
  have h3 : c ≠ 0x22 := by omega
  have h4 : c ≠ 0x5C := by omega
  have h5 : ¬ c < 0x20 := by omega
  simp [unquoteLoop, h2, h3, h4, h5]

theorem unquoteLoop_u4 (f rr : Nat) (rest rest3 : GoString)
    (hg : getu4 rest = some (rr, rest3)) (hs : rr < 0xD800 ∨ 0xE000 ≤ rr) :
    unquoteLoop (f + 1) (0x5C :: 0x75 :: rest) =
      consDecoded (encodeRune rr) (unquoteLoop f rest3) := by
  have hs2 : ¬ (0xD800 ≤ rr ∧ rr < 0xE000) := by omega
  simp [unquoteLoop, hg, hs2]

theorem getu4_byte (b : Nat) (hb : b < 0x100) (rest : GoString) :
    getu4 (0x30 :: 0x30 :: hexDigit (b / 16) :: hexDigit (b % 16) :: rest) = some (b, rest) := by
  have h0 : hexVal 0x30 = some 0 := rfl
  simp only [getu4, h0, hexVal_hexDigit (b / 16) (by omega), hexVal_hexDigit (b % 16) (by omega)]
  congr 2
  omega

theorem unquoteLoop_escapeByte (f b : Nat) (rest : GoString) (hb : b < 0x80)
    (hs : htmlSafe b = false) :
    unquoteLoop (f + 1) (escapeByte b ++ rest) = consDecoded [b] (unquoteLoop f rest) := by
  unfold escapeByte
  by_cases c1 : b = 0x5C ∨ b = 0x22
  · rcases c1 with c1 | c1 <;> subst c1 <;> simp [unquoteLoop]
  by_cases c2 : b = 0x08
  · subst c2; simp [unquoteLoop]
  by_cases c3 : b = 0x0C
  · subst c3; simp [unquoteLoop]
  by_cases c4 : b = 0x0A
  · subst c4; simp [unquoteLoop]
  by_cases c5 : b = 0x0D
  · subst c5; simp [unquoteLoop]
  by_cases c6 : b = 0x09
  · subst c6; simp [unquoteLoop]
  rw [if_neg c1, if_neg c2, if_neg c3, if_neg c4, if_neg c5, if_neg c6]
  have hu := unquoteLoop_u4 f b
    (0x30 :: 0x30 :: hexDigit (b / 16) :: hexDigit (b % 16) :: rest) rest
    (getu4_byte b (by omega) rest) (by omega)
  have he : encodeRune b = [b] := by simp [encodeRune, hb]
  rw [he] at hu
  exact hu

theorem htmlSafe_bounds (b : Nat) (hs : htmlSafe b = true) :
    0x20 ≤ b ∧ b < 0x80 ∧ b ≠ 0x22 ∧ b ≠ 0x5C := by
  simp [htmlSafe] at hs
  omega

theorem consDecoded_some (xs d rest : GoString) :
    consDecoded xs (some (d, rest)) = some (xs ++ d, rest) := rfl

/-- The decoder reads back what the encoder wrote: the literal written for `s` decodes, under
any continuation, and to `s` itself when `s` is well-formed UTF-8. -/
theorem unquoteLoop_appendStringLoop (n : Nat) :
    ∀ (s : GoString), s.length ≤ n → ∀ (fuel : Nat) (tail : GoString),
      (appendStringLoop n s).length < fuel →
      ∃ d, unquoteLoop fuel (appendStringLoop n s ++ 0x22 :: tail) = some (d, tail) ∧
        (validLoop n s = true → d = s) := by
  induction n with
  | zero =>
    intro s hlen fuel tail hfuel
    have hs : s = [] := List.length_eq_zero.mp (Nat.le_zero.mp hlen)
    subst hs
    obtain ⟨f, rfl⟩ : ∃ f, fuel = f + 1 := ⟨fuel - 1, by omega⟩
    exact ⟨[], by simp [appendStringLoop, unquoteLoop], fun _ => rfl⟩
  | succ n ih =>
    intro s hlen fuel tail hfuel
    obtain ⟨f, rfl⟩ : ∃ f, fuel = f + 1 := ⟨fuel - 1, by omega⟩
    cases s with
    | nil => exact ⟨[], by simp [appendStringLoop, unquoteLoop], fun _ => rfl⟩
    | cons b rest =>
      have hrest : rest.length ≤ n := by simpa using hlen
      by_cases hb : b < 0x80
      · have happ : appendStringLoop (n + 1) (b :: rest) =
            (if htmlSafe b then [b] else escapeByte b) ++ appendStringLoop n rest := by
          simp [appendStringLoop, hb]
        have hval : validLoop (n + 1) (b :: rest) = validLoop n rest := by
          simp [validLoop, hb]
        rw [happ] at hfuel ⊢
        rw [hval]
        have hchunk : 0 < (if htmlSafe b then [b] else escapeByte b).length := by
          split
          · simp
          · unfold escapeByte; split_ifs <;> simp
        have hf : (appendStringLoop n rest).length < f := by
          rw [List.length_append] at hfuel; omega
        obtain ⟨d, hd, hdv⟩ := ih rest hrest f tail hf
        refine ⟨b :: d, ?_, fun hv => by rw [hdv hv]⟩
        rw [List.append_assoc]
        cases hsafe : htmlSafe b with
        | true =>
          obtain ⟨k1, k2, k3, k4⟩ := htmlSafe_bounds b hsafe
          simp only [if_true, List.singleton_append]
          rw [unquoteLoop_plain f b _ k1 k2 k3 k4, hd]; rfl
        | false =>
          simp only [Bool.false_eq_true, if_false]
          rw [unquoteLoop_escapeByte f b _ hb hsafe, hd]; rfl
      · have hb8 : 0x80 ≤ b := by omega
        by_cases hinv : decodeRune (b :: rest) = (RuneError, 1)
        · have happ : appendStringLoop (n + 1) (b :: rest) =
              [0x5C, 0x75, 0x66, 0x66, 0x66, 0x64] ++ appendStringLoop n rest := by
            simp [appendStringLoop, hb, hinv]
          have hval : validLoop (n + 1) (b :: rest) = false := by
            simp [validLoop, hb, hinv]
          rw [happ] at hfuel ⊢
          rw [hval]
          have hf : (appendStringLoop n rest).length < f := by
            rw [List.length_append] at hfuel; simp at hfuel; omega
          obtain ⟨d, hd, _⟩ := ih rest hrest f tail hf
          refine ⟨encodeRune 0xFFFD ++ d, ?_, fun hv => by cases hv⟩
          have hg : getu4 (0x66 :: 0x66 :: 0x66 :: 0x64 :: (appendStringLoop n rest ++ 0x22 :: tail))
              = some (0xFFFD, appendStringLoop n rest ++ 0x22 :: tail) := rfl
          have hu := unquoteLoop_u4 f 0xFFFD _ _ hg (by omega)
          simp only [List.cons_append, List.nil_append]
          rw [hu, hd]; rfl
        · obtain ⟨pre, post, hsplit, hplen, henc, hdec, pre1, hpre⟩ :=
            decodeRune_valid b rest hb8 hinv
          have htake : (b :: rest).take (decodeRune (b :: rest)).2 = pre := by
            rw [← hplen, hsplit]; simp
          have hdrop : (b :: rest).drop (decodeRune (b :: rest)).2 = post := by
            rw [← hplen, hsplit]; simp
          have hpost : post.length ≤ n := by
            have hl := congrArg List.length hsplit
            rw [List.length_append, hpre] at hl
            simp at hl hlen
            omega
          have hval : validLoop (n + 1) (b :: rest) = validLoop n post := by
            simp only [validLoop, hb, hinv, if_false, hdrop]
          rw [hval]
          by_cases hsep : (decodeRune (b :: rest)).1 = 0x2028 ∨ (decodeRune (b :: rest)).1 = 0x2029
          · have happ : appendStringLoop (n + 1) (b :: rest) =
                [0x5C, 0x75, 0x32, 0x30, 0x32, hexDigit ((decodeRune (b :: rest)).1 % 16)] ++
                  appendStringLoop n post := by
              simp only [appendStringLoop, hb, hinv, if_false, hsep, if_true, hdrop]
            rw [happ] at hfuel ⊢
            have hf : (appendStringLoop n post).length < f := by
              rw [List.length_append] at hfuel; simp at hfuel; omega
            obtain ⟨d, hd, hdv⟩ := ih post hpost f tail hf
            refine ⟨pre ++ d, ?_, fun hv => by rw [hdv hv, hsplit]⟩
            have hg : getu4 (0x32 :: 0x30 :: 0x32 :: hexDigit ((decodeRune (b :: rest)).1 % 16) ::
                (appendStringLoop n post ++ 0x22 :: tail)) =
                some ((decodeRune (b :: rest)).1, appendStringLoop n post ++ 0x22 :: tail) := by
              rcases hsep with h8 | h9
              · rw [h8]; rfl
              · rw [h9]; rfl
            have hu := unquoteLoop_u4 f _ _ _ hg (by omega)
            simp only [List.cons_append, List.nil_append]
            rw [hu, hd, henc]; rfl
          · have happ : appendStringLoop (n + 1) (b :: rest) = pre ++ appendStringLoop n post := by
              simp only [appendStringLoop, hb, hinv, if_false, hsep, htake, hdrop]
            rw [happ] at hfuel ⊢
            have hf : (appendStringLoop n post).length < f := by
              rw [List.length_append, hpre] at hfuel; simp at hfuel; omega
            obtain ⟨d, hd, hdv⟩ := ih post hpost f tail hf
            refine ⟨pre ++ d, ?_, fun hv => by rw [hdv hv, hsplit]⟩
            rw [List.append_assoc]
            have hY := hdec (appendStringLoop n post ++ 0x22 :: tail)
            have hdropY : (pre ++ (appendStringLoop n post ++ 0x22 :: tail)).drop
                (decodeRune (b :: rest)).2 = appendStringLoop n post ++ 0x22 :: tail := by
              rw [← hplen]; simp
            have hm := unquoteLoop_multi f b (pre1 ++ (appendStringLoop n post ++ 0x22 :: tail)) hb8
            rw [← List.cons_append, ← hpre, hY, hdropY, henc, hd] at hm
            rw [hm]; rfl

theorem unquote_appendStringLoop (s tail : GoString) :
    ∃ d, unquote (appendStringLoop s.length s ++ 0x22 :: tail) = some (d, tail) ∧
      (utf8Valid s = true → d = s) := by
  unfold unquote utf8Valid
  exact unquoteLoop_appendStringLoop s.length s (Nat.le_refl _) _ tail (by simp; omega)

theorem unquote_key (key tail : GoString) (hk : appendStringLoop key.length key = key)
    (hv : utf8Valid key = true) : unquote (key ++ 0x22 :: tail) = some (key, tail) := by
  obtain ⟨d, hd, hdv⟩ := unquote_appendStringLoop key tail
  rw [hk] at hd
  rw [hd, hdv hv]

theorem skipSpace_cons (c : Nat) (rest : GoString) (hc : isSpace c = false) :
    skipSpace (c :: rest) = c :: rest := by
  simp [skipSpace, hc]

/-- A string value at the head of the input. -/
theorem parseValue_appendString (n depth : Nat) (s tail : GoString) :
    ∃ d, parseValue (n + 1) depth (appendString s ++ tail) = some (JValue.str d, tail) ∧
      (utf8Valid s = true → d = s) := by
  obtain ⟨d, hd, hdv⟩ := unquote_appendStringLoop s tail
  refine ⟨d, ?_, hdv⟩
  have hshape : appendString s ++ tail = 0x22 :: (appendStringLoop s.length s ++ 0x22 :: tail) := by
    simp [appendString]
  rw [hshape]
  simp [parseValue, hd]

/-- One member of an object whose key needs no escape. -/
theorem parseMembers_member (n depth : Nat) (key rest : GoString)
    (hk : appendStringLoop key.length key = key) (hv : utf8Valid key = true) :
    parseMembers (n + 1) depth (0x22 :: (key ++ 0x22 :: 0x3A :: rest)) =
      match parseValue n depth (skipSpace rest) with
      | none => none
      | some (v, rest3) =>
        match skipSpace rest3 with
        | [] => none
        | sep :: rest4 =>
          if sep = 0x7D then some ([(key, v)], rest4)
          else if sep = 0x2C then
            (parseMembers n depth (skipSpace rest4)).map (fun r => ((key, v) :: r.1, r.2))
          else none := by
  have hcolon : skipSpace (0x3A :: rest) = 0x3A :: rest := skipSpace_cons _ _ rfl
  simp only [parseMembers, unquote_key key _ hk hv, hcolon, if_true]

theorem appendString_head (s tail : GoString) :
    ∃ t, appendString s ++ tail = 0x22 :: t := ⟨_, rfl⟩

/-- The body `Marshal` writes for a `LoginInfo` is a JSON object with the two members `email`
and `password`, in this order, both strings; each string is the field itself when the field is
well-formed UTF-8. -/
theorem parseJSON_jsonMarshalLoginInfo (loginInfo : LoginInfo) :
    ∃ e p, parseJSON (jsonMarshalLoginInfo loginInfo).1 =
        some (JValue.obj [(bytes "email", JValue.str e), (bytes "password", JValue.str p)]) ∧
      (utf8Valid loginInfo.Email = true → e = loginInfo.Email) ∧
      (utf8Valid loginInfo.Password = true → p = loginInfo.Password) := by
  have hbody : (jsonMarshalLoginInfo loginInfo).1 =
      0x7B :: 0x22 :: (bytes "email" ++ 0x22 :: 0x3A :: (appendString loginInfo.Email ++
        (0x2C :: 0x22 :: (bytes "password" ++ 0x22 :: 0x3A ::
          (appendString loginInfo.Password ++ [0x7D]))))) := by
    simp [jsonMarshalLoginInfo]
    rfl
  obtain ⟨k, hk⟩ : ∃ k, (jsonMarshalLoginInfo loginInfo).1.length + 1 = k + 4 := by
    refine ⟨(jsonMarshalLoginInfo loginInfo).1.length - 3, ?_⟩
    rw [hbody]
    simp only [List.length_cons, List.length_append]
    omega
  obtain ⟨p, hp, hpv⟩ := parseValue_appendString k 1 loginInfo.Password [0x7D]
  obtain ⟨e, he, hev⟩ := parseValue_appendString (k + 1) 1 loginInfo.Email
    (0x2C :: 0x22 :: (bytes "password" ++ 0x22 :: 0x3A ::
      (appendString loginInfo.Password ++ [0x7D])))
  refine ⟨e, p, ?_, hev, hpv⟩
  obtain ⟨t1, ht1⟩ := appendString_head loginInfo.Email
    (0x2C :: 0x22 :: (bytes "password" ++ 0x22 :: 0x3A ::
      (appendString loginInfo.Password ++ [0x7D])))
  obtain ⟨t2, ht2⟩ := appendString_head loginInfo.Password [0x7D]
  have hm2 : parseMembers (k + 2) 1 (0x22 :: (bytes "password" ++ 0x22 :: 0x3A ::
      (appendString loginInfo.Password ++ [0x7D]))) =
      some ([(bytes "password", JValue.str p)], []) := by
    rw [parseMembers_member (k + 1) 1 (bytes "password") _ rfl rfl]
    rw [ht2, skipSpace_cons 0x22 _ rfl, ← ht2, hp]
    simp [skipSpace, isSpace]
  have hm1 : parseMembers (k + 3) 1 (0x22 :: (bytes "email" ++ 0x22 :: 0x3A ::
      (appendString loginInfo.Email ++ (0x2C :: 0x22 :: (bytes "password" ++ 0x22 :: 0x3A ::
          (appendString loginInfo.Password ++ [0x7D])))))) =
      some ([(bytes "email", JValue.str e), (bytes "password", JValue.str p)], []) := by
    rw [parseMembers_member (k + 2) 1 (bytes "email") _ rfl rfl]
    rw [ht1, skipSpace_cons 0x22 _ rfl, ← ht1, he]
    simp only
    rw [skipSpace_cons 0x2C _ rfl]
    simp only [skipSpace_cons 0x22 _ rfl]
    rw [hm2]
    simp
  unfold parseJSON
  rw [hk, hbody, skipSpace_cons 0x7B _ rfl]
  simp only [parseValue]
  rw [skipSpace_cons 0x22 _ rfl]
  simp [maxNestingDepth, hm1, skipSpace]

/-- C9, as stated, fails: an email that is the single byte `0xFF` is not well-formed UTF-8;
`Marshal` writes it as the escape of the replacement character, so the body reads back as
the three bytes of that character, not as the original email. -/
theorem loginInfo_body_roundtrip_fails_on_invalid_utf8 :
    (loginRequest (optionsOf defaultFlags) { Email := [0xFF], Password := bytes "p" }).body =
      some (bytes "\x7b\"email\":\"\\ufffd\",\"password\":\"p\"\x7d") ∧
    jsonUnmarshalLoginInfo (bytes "\x7b\"email\":\"\\ufffd\",\"password\":\"p\"\x7d") =
      Except.ok { Email := [0xEF, 0xBF, 0xBD], Password := bytes "p" } ∧
    jsonUnmarshalLoginInfo (jsonMarshalLoginInfo { Email := [0xFF], Password := bytes "p" }).1 ≠
      Except.ok { Email := [0xFF], Password := bytes "p" } := by
  refine ⟨by rfl, by rfl, ?_⟩
  have hr : jsonUnmarshalLoginInfo
      (jsonMarshalLoginInfo { Email := [0xFF], Password := bytes "p" }).1 =
      Except.ok { Email := [0xEF, 0xBF, 0xBD], Password := bytes "p" } := by rfl
  rw [hr]
  decide

/-- C9, amended: serialising a `LoginInfo` never fails; the body `login` sends is that
serialisation, a JSON object with exactly the two members `email` and `password`, both
strings; and when the email and the password are well-formed UTF-8, decoding the body into a
`LoginInfo` gives back the original email and password. -/
theorem loginInfo_body_roundtrip {σ : Type} (h : HTTP σ) (options : KeepAliveOptions)
    (loginInfo : LoginInfo) (s : σ) :
    (jsonMarshalLoginInfo loginInfo).2 = none ∧
    (loginRequest options loginInfo).body = some (jsonMarshalLoginInfo loginInfo).1 ∧
    (login h options loginInfo s).sent =
      (if h.validURL (sprintfURL options.APIHost options.Port options.LoginPath) = true then
        [loginRequest options loginInfo] else []) ∧
    (∃ e p, parseJSON (jsonMarshalLoginInfo loginInfo).1 =
      some (JValue.obj [(bytes "email", JValue.str e), (bytes "password", JValue.str p)])) ∧
    (utf8Valid loginInfo.Email = true → utf8Valid loginInfo.Password = true →
      jsonUnmarshalLoginInfo (jsonMarshalLoginInfo loginInfo).1 = Except.ok loginInfo) := by
  obtain ⟨e, p, hparse, he, hp⟩ := parseJSON_jsonMarshalLoginInfo loginInfo
  refine ⟨rfl, rfl, login_sent h options loginInfo s, ⟨e, p, hparse⟩, ?_⟩
  intro hve hvp
  rw [he hve, hp hvp] at hparse
  unfold jsonUnmarshalLoginInfo
  rw [hparse]
  have k1 : keyMatches [0x65, 0x6D, 0x61, 0x69, 0x6C] (bytes "email") = true := by rfl
  have k2 : keyMatches [0x65, 0x6D, 0x61, 0x69, 0x6C] (bytes "password") = false := by rfl
  have k3 : keyMatches [0x70, 0x61, 0x73, 0x73, 0x77, 0x6F, 0x72, 0x64] (bytes "password") =
      true := by rfl
  simp only [storeStruct, List.foldlM, storeLoginInfoMember, k1, k2, k3, storeString, if_true,
    Bool.false_eq_true, if_false]
  rfl

/-- C9 amended, at a concrete input: the credentials `a@b.com` and `p`. -/
theorem loginInfo_body_roundtrip_witness :
    utf8Valid sampleLogin.Email = true ∧ utf8Valid sampleLogin.Password = true ∧
    (jsonMarshalLoginInfo sampleLogin).1 =
      bytes "\x7b\"email\":\"a@b.com\",\"password\":\"p\"\x7d" ∧
    jsonUnmarshalLoginInfo (jsonMarshalLoginInfo sampleLogin).1 = Except.ok sampleLogin :=
  ⟨by rfl, by rfl, by rfl,
    (loginInfo_body_roundtrip (fixedServer (Reply.doError "unused") (Reply.doError "unused"))
      (optionsOf defaultFlags) sampleLogin ()).2.2.2.2 (by rfl) (by rfl)⟩

theorem decodeRune_size_pos (c : Nat) (rest : GoString) : 1 ≤ (decodeRune (c :: rest)).2 := by
  simp only [decodeRune]
  repeat' split
  all_goals simp

theorem getu4_length (s rest : GoString) (rr : Nat) (hg : getu4 s = some (rr, rest)) :
    rest.length + 4 = s.length := by
  match s, hg with
  | a :: b :: c :: d :: t, hg =>
    simp only [getu4] at hg
    split at hg
    · simp only [Option.some.injEq, Prod.mk.injEq] at hg
      rw [← hg.2]; simp
    · cases hg

/-- One turn of the loop of the string decoder, whatever the fuel: it fails, or it
closes the literal, or it decodes a chunk and goes on with a shorter input. -/
theorem unquoteLoop_turn (c : Nat) (t : GoString) :
    (∀ n, unquoteLoop (n + 1) (c :: t) = none) ∨
    (∀ n, unquoteLoop (n + 1) (c :: t) = some ([], t)) ∨
    ∃ chunk Y, Y.length < (c :: t).length ∧
      ∀ n, unquoteLoop (n + 1) (c :: t) = consDecoded chunk (unquoteLoop n Y) := by
  by_cases h1 : c = 0x22
  · exact Or.inr (Or.inl (fun n => by simp [unquoteLoop, h1]))
  by_cases h2 : c = 0x5C
  · cases t with
    | nil => exact Or.inl (fun n => by simp [unquoteLoop, h2])
    | cons e r2 =>
      by_cases e1 : e = 0x22 ∨ e = 0x5C ∨ e = 0x2F
      · exact Or.inr (Or.inr ⟨[e], r2, by simp only [List.length_cons]; omega, fun n => by simp [unquoteLoop, h2, e1]⟩)
      by_cases e2 : e = 0x62
      · exact Or.inr (Or.inr ⟨[0x08], r2, by simp only [List.length_cons]; omega, fun n => by simp [unquoteLoop, h2, e2]⟩)
      by_cases e3 : e = 0x66
      · exact Or.inr (Or.inr ⟨[0x0C], r2, by simp only [List.length_cons]; omega, fun n => by simp [unquoteLoop, h2, e3]⟩)
      by_cases e4 : e = 0x6E
      · exact Or.inr (Or.inr ⟨[0x0A], r2, by simp only [List.length_cons]; omega, fun n => by simp [unquoteLoop, h2, e4]⟩)
      by_cases e5 : e = 0x72
      · exact Or.inr (Or.inr ⟨[0x0D], r2, by simp only [List.length_cons]; omega, fun n => by simp [unquoteLoop, h2, e5]⟩)
      by_cases e6 : e = 0x74
      · exact Or.inr (Or.inr ⟨[0x09], r2, by simp only [List.length_cons]; omega, fun n => by simp [unquoteLoop, h2, e6]⟩)
      by_cases e7 : e = 0x75
      · cases hg : getu4 r2 with
        | none => exact Or.inl (fun n => by simp [unquoteLoop, h2, e7, hg])
        | some v =>
          obtain ⟨rr, r3⟩ := v
          have hl3 := getu4_length _ _ _ hg
          by_cases hs : 0xD800 ≤ rr ∧ rr < 0xE000
          · have hfallback : (∀ n, unquoteLoop (n + 1) (c :: e :: r2) =
                consDecoded (encodeRune RuneError) (unquoteLoop n r3)) →
                ∃ chunk Y, Y.length < (c :: e :: r2).length ∧
                  ∀ n, unquoteLoop (n + 1) (c :: e :: r2) =
                    consDecoded chunk (unquoteLoop n Y) :=
              fun hf => ⟨encodeRune RuneError, r3, by simp; omega, hf⟩
            match r3, hg, hl3 with
            | [], hg, _ =>
              exact Or.inr (Or.inr (hfallback (fun n => by simp [unquoteLoop, h2, e7, hg, hs])))
            | [_], hg, _ =>
              exact Or.inr (Or.inr (hfallback (fun n => by simp [unquoteLoop, h2, e7, hg, hs])))
            | a1 :: a2 :: r4, hg, hl3 =>
              cases hg2 : (if a1 = 0x5C ∧ a2 = 0x75 then getu4 r4 else none) with
              | none =>
                exact Or.inr (Or.inr (hfallback
                  (fun n => by simp only [unquoteLoop]; simp [h2, e7, hg, hs, hg2])))
              | some w =>
                obtain ⟨rr1, r5⟩ := w
                by_cases hp : rr < 0xDC00 ∧ 0xDC00 ≤ rr1 ∧ rr1 < 0xE000
                · have hl5 : r5.length + 4 = r4.length := by
                    split at hg2
                    · exact getu4_length _ _ _ hg2
                    · cases hg2
                  refine Or.inr (Or.inr ⟨encodeRune ((rr - 0xD800) * 1024 + (rr1 - 0xDC00) + 0x10000),
                    r5, ?_, fun n => by simp only [unquoteLoop]; simp [h2, e7, hg, hs, hg2, hp]⟩)
                  simp only [List.length_cons] at hl3 ⊢
                  omega
                · exact Or.inr (Or.inr (hfallback
                    (fun n => by simp only [unquoteLoop]; simp [h2, e7, hg, hs, hg2, hp])))
          · refine Or.inr (Or.inr ⟨encodeRune rr, r3, ?_,
              fun n => by simp [unquoteLoop, h2, e7, hg, hs]⟩)
            simp only [List.length_cons]; omega
      · exact Or.inl (fun n => by simp [unquoteLoop, h2, e1, e2, e3, e4, e5, e6, e7])
  by_cases h3 : c < 0x20
  · exact Or.inl (fun n => by simp [unquoteLoop, h1, h2, h3])
  by_cases h4 : c < 0x80
  · exact Or.inr (Or.inr ⟨[c], t, by simp only [List.length_cons]; omega, fun n => by simp [unquoteLoop, h1, h2, h3, h4]⟩)
  · refine Or.inr (Or.inr ⟨encodeRune (decodeRune (c :: t)).1,
      (c :: t).drop (decodeRune (c :: t)).2, ?_,
      fun n => by simp [unquoteLoop, h1, h2, h3, h4]⟩)
    have hsz := decodeRune_size_pos c t
    simp only [List.length_drop, List.length_cons]
    omega


/-- The string decoder consumes input: what is left is shorter. -/
theorem unquoteLoop_length (n : Nat) : ∀ (s d rest : GoString),
    unquoteLoop n s = some (d, rest) → rest.length < s.length := by
  induction n with
  | zero => intro s d rest hu; simp [unquoteLoop] at hu
  | succ n ih =>
    intro s d rest hu
    cases s with
    | nil => simp [unquoteLoop] at hu
    | cons c t =>
      rcases unquoteLoop_turn c t with hf | hc | ⟨chunk, Y, hY, hm⟩
      · rw [hf n] at hu; cases hu
      · rw [hc n] at hu
        simp only [Option.some.injEq, Prod.mk.injEq] at hu
        rw [← hu.2]; simp
      · rw [hm n] at hu
        cases hr : unquoteLoop n Y with
        | none => rw [hr] at hu; cases hu
        | some v =>
          obtain ⟨d1, rest1⟩ := v
          rw [hr] at hu
          simp only [consDecoded, Option.some.injEq, Prod.mk.injEq] at hu
          have hlen := ih Y d1 rest1 hr
          rw [← hu.2]
          omega

/-- The string decoder does not depend on its fuel once the fuel exceeds the length of the
input: the fuel `unquote` passes is never what makes it fail. -/
theorem unquoteLoop_fuel (n : Nat) : ∀ (m : Nat) (s : GoString),
    s.length < n → s.length < m → unquoteLoop n s = unquoteLoop m s := by
  induction n with
  | zero => intro m s hn _; omega
  | succ n ih =>
    intro m s hn hm
    obtain ⟨k, rfl⟩ : ∃ k, m = k + 1 := ⟨m - 1, by omega⟩
    cases s with
    | nil => simp [unquoteLoop]
    | cons c t =>
      rcases unquoteLoop_turn c t with hf | hc | ⟨chunk, Y, hY, hstep⟩
      · rw [hf n, hf k]
      · rw [hc n, hc k]
      · rw [hstep n, hstep k, ih k Y (by omega) (by omega)]

theorem unquote_fuel (s : GoString) (extra : Nat) :
    unquoteLoop (s.length + 1 + extra) s = unquote s :=
  unquoteLoop_fuel _ _ s (by omega) (by omega)

theorem unquote_length (s d rest : GoString) (hu : unquote s = some (d, rest)) :
    rest.length < s.length := unquoteLoop_length _ s d rest hu

theorem skipSpace_length (s : GoString) : (skipSpace s).length ≤ s.length := by
  induction s with
  | nil => simp [skipSpace]
  | cons c t ih =>
    simp only [skipSpace]
    split
    · simp only [List.length_cons]; omega
    · exact Nat.le_refl _

theorem dropLit_length (lit : GoString) : ∀ (s rest : GoString),
    dropLit lit s = some rest → rest.length ≤ s.length := by
  induction lit with
  | nil => intro s rest hd; simp [dropLit] at hd; rw [hd]
  | cons l ls ih =>
    intro s rest hd
    cases s with
    | nil => simp [dropLit] at hd
    | cons c t =>
      simp only [dropLit] at hd
      split at hd
      · have := ih t rest hd
        simp only [List.length_cons]; omega
      · cases hd

theorem span_snd_length (p : Nat → Bool) (s : GoString) : (s.span p).2.length ≤ s.length := by
  rw [List.span_eq_take_drop]
  exact (List.dropWhile_sublist p).length_le

theorem scanDigits_length (s ds rest : GoString) (hs : scanDigits s = some (ds, rest)) :
    rest.length ≤ s.length := by
  unfold scanDigits at hs
  have hl := span_snd_length isDigit s
  split at hs
  · cases hs
  · rename_i ds1 rest1 _ heq
    simp only [Option.some.injEq, Prod.mk.injEq] at hs
    rw [heq] at hl
    rw [← hs.2]; exact hl


theorem scanInt_length (s i rest : GoString) (hs : scanInt s = some (i, rest)) :
    rest.length < s.length := by
  cases s with
  | nil => simp [scanInt] at hs
  | cons c t =>
    simp only [scanInt] at hs
    have hl := span_snd_length isDigit t
    split at hs
    · simp only [Option.some.injEq, Prod.mk.injEq] at hs
      rw [← hs.2]; simp
    · split at hs
      · simp only [Option.some.injEq, Prod.mk.injEq] at hs
        rw [← hs.2]; simp only [List.length_cons]; omega
      · cases hs

theorem map_scanDigits_length (s : GoString) (f : GoString × GoString → GoString)
    (r : GoString × GoString)
    (hs : (scanDigits s).map (fun x => (f x, x.2)) = some r) : r.2.length ≤ s.length := by
  cases hd : scanDigits s with
  | none => rw [hd] at hs; cases hs
  | some v =>
    obtain ⟨ds, rest⟩ := v
    rw [hd] at hs
    simp only [Option.map_some', Option.some.injEq] at hs
    rw [← hs]
    exact scanDigits_length s ds rest hd

theorem scanFrac_length (s f rest : GoString) (hs : scanFrac s = some (f, rest)) :
    rest.length ≤ s.length := by
  cases s with
  | nil => simp [scanFrac] at hs; rw [hs.2]
  | cons c t =>
    simp only [scanFrac] at hs
    split at hs
    · have := map_scanDigits_length t (fun x => c :: x.1) (f, rest) hs
      simp only [List.length_cons]; simp only at this; omega
    · simp only [Option.some.injEq, Prod.mk.injEq] at hs
      rw [← hs.2]

theorem scanExp_length (s e rest : GoString) (hs : scanExp s = some (e, rest)) :
    rest.length ≤ s.length := by
  cases s with
  | nil => simp [scanExp] at hs; rw [hs.2]
  | cons c t =>
    simp only [scanExp] at hs
    split at hs
    · cases t with
      | nil => cases hs
      | cons g t2 =>
        simp only at hs
        split at hs
        · have := map_scanDigits_length t2 (fun x => c :: g :: x.1) (e, rest) hs
          simp only [List.length_cons]; simp only at this; omega
        · have := map_scanDigits_length (g :: t2) (fun x => c :: x.1) (e, rest) hs
          simp only [List.length_cons] at this ⊢; omega
    · simp only [Option.some.injEq, Prod.mk.injEq] at hs
      rw [← hs.2]

theorem scanNumber_length (s lit rest : GoString) (hs : scanNumber s = some (lit, rest)) :
    rest.length < s.length := by
  unfold scanNumber at hs
  simp only at hs
  have hbody : (match s with
      | [] => s
      | c :: t => if c = 0x2D then t else s).length ≤ s.length := by
    cases s with
    | nil => simp
    | cons c t =>
      simp only
      split
      · simp
      · exact Nat.le_refl _
  generalize (match s with
      | [] => s
      | c :: t => if c = 0x2D then t else s) = body at hs hbody
  cases hi : scanInt body with
  | none => rw [hi] at hs; cases hs
  | some vi =>
    obtain ⟨i, s2⟩ := vi
    rw [hi] at hs
    simp only at hs
    cases hf : scanFrac s2 with
    | none => rw [hf] at hs; cases hs
    | some vf =>
      obtain ⟨f, s3⟩ := vf
      rw [hf] at hs
      simp only at hs
      cases he : scanExp s3 with
      | none => rw [he] at hs; cases hs
      | some ve =>
        obtain ⟨e, s4⟩ := ve
        rw [he] at hs
        simp only [Option.some.injEq, Prod.mk.injEq] at hs
        have h1 := scanInt_length _ _ _ hi
        have h2 := scanFrac_length _ _ _ hf
        have h3 := scanExp_length _ _ _ he
        rw [← hs.2]
        omega

theorem fuel_conclusion {α : Type} (parse : Nat → Option α) (r : α) (total left : Nat)
    (hlen : left ≤ total)
    (hk : ∀ k, total - left ≤ k → parse (k + 1) = some r) :
    left < total + 1 ∧ ∀ m, total + 1 - left ≤ m → parse m = some r := by
  refine ⟨by omega, fun m hm => ?_⟩
  obtain ⟨k, rfl⟩ : ∃ k, m = k + 1 := ⟨m - 1, by omega⟩
  exact hk k (by omega)

theorem map_eq_some_pair {α β : Type} (f : α → β) (o : Option α) (r : β)
    (h : o.map f = some r) : ∃ x, o = some x ∧ f x = r := by
  cases o with
  | none => cases h
  | some x => exact ⟨x, rfl, by simpa using h⟩

theorem parseValue_step (n : Nat)
    (ihM : ∀ d s ms rest, parseMembers n d s = some (ms, rest) →
      rest.length < s.length ∧
        ∀ m, s.length - rest.length ≤ m → parseMembers m d s = some (ms, rest))
    (ihE : ∀ d s vs rest, parseElems n d s = some (vs, rest) →
      rest.length < s.length ∧
        ∀ m, s.length - rest.length ≤ m → parseElems m d s = some (vs, rest)) :
    ∀ d s v rest, parseValue (n + 1) d s = some (v, rest) →
      rest.length < s.length ∧
        ∀ m, s.length - rest.length ≤ m → parseValue m d s = some (v, rest) := by
  intro d s v rest hp
  cases s with
  | nil => simp [parseValue] at hp
  | cons c t =>
    simp only [parseValue] at hp
    simp only [List.length_cons]
    suffices hgoal : rest.length ≤ t.length ∧
        ∀ k, t.length - rest.length ≤ k → parseValue (k + 1) d (c :: t) = some (v, rest) from
      fuel_conclusion (fun m => parseValue m d (c :: t)) _ _ _ hgoal.1 hgoal.2
    by_cases c1 : c = 0x7B
    · simp only [c1, if_true] at hp
      by_cases hdepth : maxNestingDepth < d + 1
      · simp [hdepth] at hp
      simp only [hdepth, if_false] at hp
      have hsl := skipSpace_length t
      cases hss : skipSpace t with
      | nil => rw [hss] at hp; cases hp
      | cons d0 r2 =>
        rw [hss] at hp hsl
        simp only at hp
        by_cases hd0 : d0 = 0x7D
        · simp only [hd0, if_true, Option.some.injEq, Prod.mk.injEq] at hp
          obtain ⟨rfl, rfl⟩ := hp
          refine ⟨by simp only [List.length_cons] at hsl; omega, fun k _ => ?_⟩
          simp [parseValue, c1, hdepth, hss, hd0]
        · simp only [hd0, if_false] at hp
          obtain ⟨⟨ms, rest1⟩, hm, hr⟩ := map_eq_some_pair _ _ _ hp
          simp only [Prod.mk.injEq] at hr
          obtain ⟨rfl, rfl⟩ := hr
          obtain ⟨hl, hfuel⟩ := ihM _ _ _ _ hm
          simp only [List.length_cons] at hsl hl hfuel
          refine ⟨by omega, fun k hk => ?_⟩
          simp [parseValue, c1, hdepth, hss, hd0, hfuel k (by omega)]
    by_cases c2 : c = 0x5B
    · simp only [c2, if_true] at hp
      simp only [show ¬ (0x5B : Nat) = 0x7B by decide, if_false] at hp
      by_cases hdepth : maxNestingDepth < d + 1
      · simp [hdepth] at hp
      simp only [hdepth, if_false] at hp
      have hsl := skipSpace_length t
      cases hss : skipSpace t with
      | nil => rw [hss] at hp; cases hp
      | cons d0 r2 =>
        rw [hss] at hp hsl
        simp only at hp
        by_cases hd0 : d0 = 0x5D
        · simp only [hd0, if_true, Option.some.injEq, Prod.mk.injEq] at hp
          obtain ⟨rfl, rfl⟩ := hp
          refine ⟨by simp only [List.length_cons] at hsl; omega, fun k _ => ?_⟩
          simp [parseValue, c2, hdepth, hss, hd0]
        · simp only [hd0, if_false] at hp
          obtain ⟨⟨vs, rest1⟩, hm, hr⟩ := map_eq_some_pair _ _ _ hp
          simp only [Prod.mk.injEq] at hr
          obtain ⟨rfl, rfl⟩ := hr
          obtain ⟨hl, hfuel⟩ := ihE _ _ _ _ hm
          simp only [List.length_cons] at hsl hl hfuel
          refine ⟨by omega, fun k hk => ?_⟩
          simp [parseValue, c2, hdepth, hss, hd0, hfuel k (by omega)]
    simp only [c1, c2, if_false] at hp
    have hrest : rest.length ≤ t.length := by
      by_cases c3 : c = 0x22
      · simp only [c3, if_true] at hp
        obtain ⟨⟨x, r⟩, hu, hr⟩ := map_eq_some_pair _ _ _ hp
        simp only [Prod.mk.injEq] at hr
        have := unquote_length _ _ _ hu
        rw [← hr.2]; omega
      by_cases c4 : c = 0x74
      · simp only [c3, c4, if_true, if_false] at hp
        simp only [show ¬ (0x74 : Nat) = 0x22 by decide, if_false] at hp
        obtain ⟨r, hu, hr⟩ := map_eq_some_pair _ _ _ hp
        simp only [Prod.mk.injEq] at hr
        have := dropLit_length _ _ _ hu
        rw [← hr.2]; omega
      by_cases c5 : c = 0x66
      · simp only [c5, if_true] at hp
        simp only [show ¬ (0x66 : Nat) = 0x22 by decide, show ¬ (0x66 : Nat) = 0x74 by decide,
          if_false] at hp
        obtain ⟨r, hu, hr⟩ := map_eq_some_pair _ _ _ hp
        simp only [Prod.mk.injEq] at hr
        have := dropLit_length _ _ _ hu
        rw [← hr.2]; omega
      by_cases c6 : c = 0x6E
      · simp only [c6, if_true] at hp
        simp only [show ¬ (0x6E : Nat) = 0x22 by decide, show ¬ (0x6E : Nat) = 0x74 by decide,
          show ¬ (0x6E : Nat) = 0x66 by decide, if_false] at hp
        obtain ⟨r, hu, hr⟩ := map_eq_some_pair _ _ _ hp
        simp only [Prod.mk.injEq] at hr
        have := dropLit_length _ _ _ hu
        rw [← hr.2]; omega
      · simp only [c3, c4, c5, c6, if_false] at hp
        obtain ⟨⟨x, r⟩, hu, hr⟩ := map_eq_some_pair _ _ _ hp
        simp only [Prod.mk.injEq] at hr
        have := scanNumber_length _ _ _ hu
        simp only [List.length_cons] at this
        rw [← hr.2]; omega
    refine ⟨hrest, fun k _ => ?_⟩
    simp only [parseValue, c1, c2, if_false]
    exact hp

theorem parseMembers_step (n : Nat)
    (ihV : ∀ d s v rest, parseValue n d s = some (v, rest) →
      rest.length < s.length ∧
        ∀ m, s.length - rest.length ≤ m → parseValue m d s = some (v, rest))
    (ihM : ∀ d s ms rest, parseMembers n d s = some (ms, rest) →
      rest.length < s.length ∧
        ∀ m, s.length - rest.length ≤ m → parseMembers m d s = some (ms, rest)) :
    ∀ d s ms rest, parseMembers (n + 1) d s = some (ms, rest) →
      rest.length < s.length ∧
        ∀ m, s.length - rest.length ≤ m → parseMembers m d s = some (ms, rest) := by
  intro d s ms rest hp
  cases s with
  | nil => simp [parseMembers] at hp
  | cons c t =>
    simp only [parseMembers] at hp
    simp only [List.length_cons]
    suffices hgoal : rest.length ≤ t.length ∧
        ∀ k, t.length - rest.length ≤ k → parseMembers (k + 1) d (c :: t) = some (ms, rest) from
      fuel_conclusion (fun m => parseMembers m d (c :: t)) _ _ _ hgoal.1 hgoal.2
    by_cases c1 : c = 0x22
    · simp only [c1, if_true] at hp
      cases hu : unquote t with
      | none => rw [hu] at hp; cases hp
      | some ukr =>
        obtain ⟨key, r1⟩ := ukr
        rw [hu] at hp
        simp only at hp
        have hl1 := unquote_length _ _ _ hu
        have hs1 := skipSpace_length r1
        cases hss1 : skipSpace r1 with
        | nil => rw [hss1] at hp; cases hp
        | cons colon r2 =>
          rw [hss1] at hp hs1
          simp only at hp
          by_cases hcolon : colon = 0x3A
          · simp only [hcolon, if_true] at hp
            have hs2 := skipSpace_length r2
            cases hv : parseValue n d (skipSpace r2) with
            | none => rw [hv] at hp; cases hp
            | some vr =>
              obtain ⟨v, r3⟩ := vr
              rw [hv] at hp
              simp only at hp
              obtain ⟨hl3, hfuelV⟩ := ihV _ _ _ _ hv
              have hs3 := skipSpace_length r3
              cases hss3 : skipSpace r3 with
              | nil => rw [hss3] at hp; cases hp
              | cons sep r4 =>
                rw [hss3] at hp hs3
                simp only at hp
                simp only [List.length_cons] at hs1 hs3
                by_cases hsep : sep = 0x7D
                · simp only [hsep, if_true, Option.some.injEq, Prod.mk.injEq] at hp
                  obtain ⟨rfl, rfl⟩ := hp
                  refine ⟨by omega, fun k hk => ?_⟩
                  simp [parseMembers, c1, hu, hss1, hcolon, hfuelV k (by omega), hss3, hsep]
                · simp only [hsep, if_false] at hp
                  by_cases hcomma : sep = 0x2C
                  · simp only [hcomma, if_true] at hp
                    obtain ⟨⟨ms1, rest1⟩, hm, hr⟩ := map_eq_some_pair _ _ _ hp
                    simp only [Prod.mk.injEq] at hr
                    obtain ⟨rfl, rfl⟩ := hr
                    obtain ⟨hl5, hfuelM⟩ := ihM _ _ _ _ hm
                    have hs4 := skipSpace_length r4
                    refine ⟨by omega, fun k hk => ?_⟩
                    simp [parseMembers, c1, hu, hss1, hcolon, hfuelV k (by omega), hss3, hcomma,
                      hfuelM k (by omega)]
                  · simp [hcomma] at hp
          · simp [hcolon] at hp
    · simp [c1] at hp

theorem parseElems_step (n : Nat)
    (ihV : ∀ d s v rest, parseValue n d s = some (v, rest) →
      rest.length < s.length ∧
        ∀ m, s.length - rest.length ≤ m → parseValue m d s = some (v, rest))
    (ihE : ∀ d s vs rest, parseElems n d s = some (vs, rest) →
      rest.length < s.length ∧
        ∀ m, s.length - rest.length ≤ m → parseElems m d s = some (vs, rest)) :
    ∀ d s vs rest, parseElems (n + 1) d s = some (vs, rest) →
      rest.length < s.length ∧
        ∀ m, s.length - rest.length ≤ m → parseElems m d s = some (vs, rest) := by
  intro d s vs rest hp
  simp only [parseElems] at hp
  cases hv : parseValue n d s with
  | none => rw [hv] at hp; cases hp
  | some vr =>
    obtain ⟨v, r1⟩ := vr
    rw [hv] at hp
    simp only at hp
    obtain ⟨hl1, hfuelV⟩ := ihV _ _ _ _ hv
    have hs1 := skipSpace_length r1
    cases hss1 : skipSpace r1 with
    | nil => rw [hss1] at hp; cases hp
    | cons sep r2 =>
      rw [hss1] at hp hs1
      simp only at hp
      simp only [List.length_cons] at hs1
      suffices hgoal : rest.length < s.length ∧
          ∀ k, s.length - rest.length ≤ k + 1 → parseElems (k + 1) d s = some (vs, rest) by
        refine ⟨hgoal.1, fun m hm => ?_⟩
        obtain ⟨k, rfl⟩ : ∃ k, m = k + 1 := ⟨m - 1, by omega⟩
        exact hgoal.2 k hm
      by_cases hsep : sep = 0x5D
      · simp only [hsep, if_true, Option.some.injEq, Prod.mk.injEq] at hp
        obtain ⟨rfl, rfl⟩ := hp
        refine ⟨by omega, fun k hk => ?_⟩
        simp [parseElems, hfuelV k (by omega), hss1, hsep]
      · simp only [hsep, if_false] at hp
        by_cases hcomma : sep = 0x2C
        · simp only [hcomma, if_true] at hp
          obtain ⟨⟨vs1, rest1⟩, hm, hr⟩ := map_eq_some_pair _ _ _ hp
          simp only [Prod.mk.injEq] at hr
          obtain ⟨rfl, rfl⟩ := hr
          obtain ⟨hl3, hfuelE⟩ := ihE _ _ _ _ hm
          have hs2 := skipSpace_length r2
          refine ⟨by omega, fun k hk => ?_⟩
          simp [parseElems, hfuelV k (by omega), hss1, hcomma, hfuelE k (by omega)]
        · simp [hcomma] at hp

/-- Whenever the parser succeeds it has consumed input, and it succeeds alike with any fuel
that is at least the number of bytes consumed. -/
theorem parse_consumes (n : Nat) :
    (∀ d s v rest, parseValue n d s = some (v, rest) →
      rest.length < s.length ∧
        ∀ m, s.length - rest.length ≤ m → parseValue m d s = some (v, rest)) ∧
    (∀ d s ms rest, parseMembers n d s = some (ms, rest) →
      rest.length < s.length ∧
        ∀ m, s.length - rest.length ≤ m → parseMembers m d s = some (ms, rest)) ∧
    (∀ d s vs rest, parseElems n d s = some (vs, rest) →
      rest.length < s.length ∧
        ∀ m, s.length - rest.length ≤ m → parseElems m d s = some (vs, rest)) := by
  induction n with
  | zero =>
    refine ⟨?_, ?_, ?_⟩ <;> intro d s v rest hp
    · simp [parseValue] at hp
    · simp [parseMembers] at hp
    · simp [parseElems] at hp
  | succ n ih =>
    exact ⟨parseValue_step n ih.2.1 ih.2.2, parseMembers_step n ih.1 ih.2.1,
      parseElems_step n ih.1 ih.2.2⟩

/-- The parser does not depend on its fuel once the fuel exceeds the length of the input. -/
theorem parseValue_fuel (n m d : Nat) (s : GoString) (hn : s.length < n) (hm : s.length < m) :
    parseValue n d s = parseValue m d s := by
  cases h1 : parseValue n d s with
  | some r =>
    obtain ⟨v, rest⟩ := r
    exact (((parse_consumes n).1 d s v rest h1).2 m (by omega)).symm
  | none =>
    cases h2 : parseValue m d s with
    | none => rfl
    | some r =>
      obtain ⟨v, rest⟩ := r
      have := ((parse_consumes m).1 d s v rest h2).2 n (by omega)
      rw [h1] at this
      cases this

/-- The fuel `parseJSON` passes to the parser is never what makes it reject a text: any
larger fuel gives the same result. -/
theorem parseJSON_fuel (data : GoString) (extra : Nat) :
    (match parseValue (data.length + 1 + extra) 0 (skipSpace data) with
      | none => none
      | some (v, rest) => if (skipSpace rest).isEmpty then some v else none) = parseJSON data := by
  unfold parseJSON
  have hs := skipSpace_length data
  rw [parseValue_fuel (data.length + 1 + extra) (data.length + 1) 0 (skipSpace data)
    (by omega) (by omega)]

theorem drop_decodeRune_length (c : Nat) (t : GoString) :
    ((c :: t).drop (decodeRune (c :: t)).2).length ≤ t.length := by
  have hsz := decodeRune_size_pos c t
  simp only [List.length_drop, List.length_cons]
  omega

/-- The encoder loop does not depend on its fuel once the fuel covers the input. -/
theorem appendStringLoop_fuel (n : Nat) : ∀ (m : Nat) (s : GoString),
    s.length ≤ n → s.length ≤ m → appendStringLoop n s = appendStringLoop m s := by
  induction n with
  | zero =>
    intro m s hn _
    have hs : s = [] := List.length_eq_zero.mp (Nat.le_zero.mp hn)
    subst hs
    cases m <;> rfl
  | succ n ih =>
    intro m s hn hm
    cases s with
    | nil => cases m <;> rfl
    | cons c t =>
      obtain ⟨k, rfl⟩ : ∃ k, m = k + 1 := ⟨m - 1, by simp at hm; omega⟩
      have hd := drop_decodeRune_length c t
      simp only [List.length_cons] at hn hm
      simp only [appendStringLoop]
      rw [ih k t (by omega) (by omega),
        ih k ((c :: t).drop (decodeRune (c :: t)).2) (by omega) (by omega)]

/-- The loop of `utf8.Valid` does not depend on its fuel once the fuel covers the input. -/
theorem validLoop_fuel (n : Nat) : ∀ (m : Nat) (s : GoString),
    s.length ≤ n → s.length ≤ m → validLoop n s = validLoop m s := by
  induction n with
  | zero =>
    intro m s hn _
    have hs : s = [] := List.length_eq_zero.mp (Nat.le_zero.mp hn)
    subst hs
    cases m <;> rfl
  | succ n ih =>
    intro m s hn hm
    cases s with
    | nil => cases m <;> rfl
    | cons c t =>
      obtain ⟨k, rfl⟩ : ∃ k, m = k + 1 := ⟨m - 1, by simp at hm; omega⟩
      have hd := drop_decodeRune_length c t
      simp only [List.length_cons] at hn hm
      simp only [validLoop]
      rw [ih k t (by omega) (by omega),
        ih k ((c :: t).drop (decodeRune (c :: t)).2) (by omega) (by omega)]

/-- The loop of `foldName` does not depend on its fuel once the fuel covers the input. -/
theorem foldNameLoop_fuel (n : Nat) : ∀ (m : Nat) (s : GoString),
    s.length ≤ n → s.length ≤ m → foldNameLoop n s = foldNameLoop m s := by
  induction n with
  | zero =>
    intro m s hn _
    have hs : s = [] := List.length_eq_zero.mp (Nat.le_zero.mp hn)
    subst hs
    cases m <;> rfl
  | succ n ih =>
    intro m s hn hm
    cases s with
    | nil => cases m <;> rfl
    | cons c t =>
      obtain ⟨k, rfl⟩ : ∃ k, m = k + 1 := ⟨m - 1, by simp at hm; omega⟩
      have hd := drop_decodeRune_length c t
      simp only [List.length_cons] at hn hm
      simp only [foldNameLoop]
      rw [ih k t (by omega) (by omega),
        ih k ((c :: t).drop (decodeRune (c :: t)).2) (by omega) (by omega)]

end KeepTokenAlive
